import Mathlib

/-!
SCREAM / SCORPIO interface: a verification development.

Shallow embedding of `components/scream/src/share/io/scream_scorpio_interface.hpp`
(the C++/F90 bridge to the SCORPIO parallel I/O routines) and of the file-session
protocol that the interface declares.

* Part 1 embeds what the header itself defines: the numeric kind tags `PIO_REAL` and
  `PIO_INT`, the enumeration `FileMode`, and the inline function `get_nc_tag_name`.
* Part 2 embeds the operations the header only declares.  Their bodies live in
  `scream_scorpio_interface.cpp` and in the F90 module of the same name, so they are
  modelled from the design document of the subsystem.
* Part 3 embeds the input checks of the `shoc_energy_total_fixer` unit test
  (`physics/shoc/tests/shoc_energy_total_fixer_tests.cpp`).
-/

namespace scream

/-! ## Part 1: definitions of the header -/

/-- The preprocessor configuration the header is compiled under: which of the two
symbols `SCREAM_CONFIG_IS_CMAKE` and `SCREAM_DOUBLE_PRECISION` are defined. -/
structure BuildConfig where
  SCREAM_CONFIG_IS_CMAKE : Bool
  SCREAM_DOUBLE_PRECISION : Bool
  deriving DecidableEq, Repr

/-- The constant `PIO_REAL` (header lines 12-20), one definition per preprocessor branch. -/
def PIO_REAL (cfg : BuildConfig) : Int :=
  if cfg.SCREAM_CONFIG_IS_CMAKE then
    if cfg.SCREAM_DOUBLE_PRECISION then 6 else 5
  else 6

/-- The constant `PIO_INT` (header line 21), defined outside every conditional. -/
def PIO_INT : Int := 4

/-- The numeric kind tags the header defines under a configuration, in source order. -/
def numeric_kind_tags (cfg : BuildConfig) : List Int := [PIO_REAL cfg, PIO_INT]

/-- Scalar type `Real` of `share/scream_types.hpp`.  The interface only stores and hands
back such values (a time stamp, the entries of a buffer); no arithmetic is done on them,
so they are carried as exact rationals. -/
abbrev Real := Rat

/-- Modelled from the spec: the enumeration `FieldTag` and the short names of
`ShortFieldTagsNames` are declared in `share/field/field_tag.hpp`, which is not part of
the sources at hand.  The spec speaks of "abstract axis identifiers" (an element axis, a
vertical-level axis, an interface-level axis, a time axis, a horizontal-column axis, plus
axes for spectral bands and gas species).  The ten short names used as `case` labels by
`get_nc_tag_name` are the first ten constructors (case labels of one `switch` are
pairwise distinct); `other code` stands for every further value of the enumeration. -/
inductive FieldTag where
  | EL
  | LEV
  | ILEV
  | TL
  | COL
  | GP
  | CMP
  | NGAS
  | SWBND
  | LWBND
  | other (code : Nat)
  deriving DecidableEq, Repr

namespace scorpio

/-- Type `offset_t = std::int64_t` of the header: a 64-bit signed global offset. -/
abbrev offset_t := Int

/-- The enumeration `FileMode` (header lines 30-33): an unscoped enumeration without a
fixed underlying type.  Its enumerators are `Read = 1` and `Write = 2`; an object of the
type holds a value of the smallest bit-field that holds both enumerators, that is one of
0, 1, 2, 3 (a caller gets 0 or 3 by a cast, for instance of `Read | Write`). -/
structure FileMode where
  value : Fin 4
  deriving DecidableEq, Repr

/-- The enumerator `Read = 1` (header line 31). -/
def FileMode.Read : FileMode := ⟨1⟩

/-- The enumerator `Write = 2` (header line 32). -/
def FileMode.Write : FileMode := ⟨2⟩

/-- Library function `std::to_string(int)`: the decimal digits of the absolute value,
preceded by a minus sign for a negative argument. -/
def to_string (value : Int) : String :=
  if value < 0 then "-" ++ String.mk (Nat.toDigits 10 value.natAbs)
  else String.mk (Nat.toDigits 10 value.natAbs)

/-- The macro `EKAT_ERROR_MSG(msg)` of the EKAT library: it raises an error carrying
`msg`, so the enclosing function does not return a value. -/
def EKAT_ERROR_MSG {α : Type} (msg : String) : Except String α := Except.error msg

/-- The function `get_nc_tag_name` (header lines 85-126): the name of a tag that is
compatible with nc files.  Each `case` assigns `name` and leaves the `switch`; the
`default` branch raises the error. -/
def get_nc_tag_name (t : FieldTag) (extent : Int) : Except String String :=
  match t with
  | .EL => .ok "elem"
  | .LEV => .ok "lev"
  | .ILEV => .ok "ilev"
  | .TL => .ok "tl"
  | .COL => .ok "ncol"
  | .GP => .ok "gp"
  | .CMP => .ok ("dim" ++ to_string extent)
  | .NGAS => .ok "ngas"
  | .SWBND => .ok "swband"
  | .LWBND => .ok "lwband"
  | .other _ => EKAT_ERROR_MSG "Error! Field tag not supported in netcdf files."

/-- The ten tags that `get_nc_tag_name` has a `case` for. -/
def nc_supported_tags : List FieldTag :=
  [.EL, .LEV, .ILEV, .TL, .COL, .GP, .CMP, .NGAS, .SWBND, .LWBND]

/-- Reading of a digit string: the number it denotes in base ten. -/
def decimal_value (ds : List Char) : Nat :=
  ds.foldl (fun acc c => 10 * acc + (c.toNat - 48)) 0

/-- Spec wording "the decimal representation of n, including a leading '-' for negative n":
`cs` is an optional minus sign (present exactly for negative `n`) followed by a non-empty
run of decimal digits without a superfluous leading zero, whose value is `|n|`. -/
def IsDecimalRepr (cs : List Char) (n : Int) : Prop :=
  ∃ ds : List Char,
    cs = (if n < 0 then ['-'] else []) ++ ds ∧
    ds ≠ [] ∧
    (∀ c ∈ ds, c.isDigit = true) ∧
    (ds.head? = some '0' → ds = ['0']) ∧
    decimal_value ds = n.natAbs

/-! ## Part 2: the operations the header declares

The header declares these functions; their bodies are in the C++ and F90 sources of the
interface.  Each definition below follows the design document, section by section.
A call in the wrong state is rejected with the kind the document names for that state
(`DefinitionClosed` after the end of the definition phase, the "not yet defined" kind
before it, `AlreadyClosed` on a closed session).  Where the document rejects a call
without naming a kind (no session for the name, wrong open mode, a malformed argument),
the catch-all `TransportFailure` is used. -/

/-- Modelled from the spec: the error kinds of section 7 (the bodies that raise them are
in `scream_scorpio_interface.cpp`), and the "not yet defined" kind that section 8 asks
for when data is transferred before the end of the definition phase. -/
inductive ErrorKind where
  | SubsystemNotReady
  | AlreadyInitialized
  | NotInitialized
  | DuplicateOpen
  | DuplicateDimension
  | UnknownDimension
  | IncompleteDecomposition
  | DefinitionClosed
  | TimeIndexOutOfRange
  | AlreadyClosed
  | TransportFailure
  | NotYetDefined
  deriving DecidableEq, Repr

/-- Modelled from the spec: section 6, "every operation either succeeds or signals one of
the kinds"; there is no result in between. -/
inductive Outcome where
  | ok
  | failed (kind : ErrorKind)
  deriving DecidableEq, Repr

/-- Modelled from the spec: lifecycle of the Subsystem State (section 3),
"uninitialized, initialized, finalized"; the state itself is kept by the F90 module. -/
inductive Lifecycle where
  | uninitialized
  | initialized
  | finalized
  deriving DecidableEq, Repr

/-- Modelled from the spec: states of a File Session (section 4.2).  The state
`Unregistered` of the document is the absence of a session for the file name. -/
inductive SessionState where
  | Registered
  | Defined
  | Closed
  deriving DecidableEq, Repr

/-- Modelled from the spec: a Dimension (section 3): name, long name, and a fixed extent,
or no extent for the unlimited record dimension (`length = none`). -/
structure Dimension where
  shortname : String
  longname : String
  length : Option Nat
  deriving DecidableEq, Repr

/-- Modelled from the spec: a Variable Descriptor (section 3): name, long name, units,
numeric kind, the ordered list of dimension names, and the decomposition tag of a
distributed variable (`none` for an undistributed one). -/
structure Variable where
  shortname : String
  longname : String
  units : String
  var_dimensions : List String
  dtype : Int
  pio_decomp_tag : Option String
  deriving DecidableEq, Repr

/-- Modelled from the spec: what a file holds once written: its catalogs, the time
slots stamped so far, and per (variable, slot) the elements transferred. -/
structure FileContents where
  dims : List Dimension
  vars : List Variable
  time_slot : Nat
  time_stamps : List (Nat × Real)
  data : List ((String × Nat) × List Real)
  deriving DecidableEq, Repr

/-- Modelled from the spec: a File Session (section 3): file name, open mode, lifecycle
state, dimension and variable catalogs, decomposition descriptors by tag, whether
`set_decomp` has bound them, the time-slot counter with the recorded time values, and the
data transferred so far. -/
structure FileSession where
  filename : String
  mode : FileMode
  state : SessionState
  dims : List Dimension
  vars : List Variable
  decomps : List (String × List offset_t)
  decomp_bound : Bool
  time_slot : Nat
  time_stamps : List (Nat × Real)
  data : List ((String × Nat) × List Real)
  deriving DecidableEq, Repr

/-- Modelled from the spec: the Subsystem State (section 3): lifecycle, communicator,
owning component, and the file sessions it owns; `storage` is what the transport has
written out, by file name. -/
structure PioSubsystem where
  lifecycle : Lifecycle
  mpicom : Int
  atm_id : Int
  sessions : List FileSession
  storage : List (String × FileContents)
  deriving DecidableEq, Repr

/-- Modelled from the spec: keyed registry lookup with an explicit "not found" result
(section 9). -/
def assoc_lookup {κ α : Type} [DecidableEq κ] (k : κ) : List (κ × α) → Option α
  | [] => none
  | (j, v) :: rest => if j = k then some v else assoc_lookup k rest

/-- Modelled from the spec: keyed registry update; writing an existing key replaces its
entry ("last write wins", section 4.2), a new key is appended. -/
def assoc_insert {κ α : Type} [DecidableEq κ] (k : κ) (v : α) : List (κ × α) → List (κ × α)
  | [] => [(k, v)]
  | (j, w) :: rest => if j = k then (k, v) :: rest else (j, w) :: assoc_insert k v rest

/-- Modelled from the spec: the state before `eam_init_pio_subsystem` was ever called,
over whatever files `storage` already holds. -/
def PioSubsystem.boot (storage : List (String × FileContents)) : PioSubsystem :=
  { lifecycle := .uninitialized, mpicom := 0, atm_id := 0, sessions := [], storage := storage }

/-- Modelled from the spec: section 7, a violation aborts the current call; the state is
the one the call found. -/
def reject (s : PioSubsystem) (kind : ErrorKind) : Outcome × PioSubsystem := (.failed kind, s)

/-- Modelled from the spec: the session registered under a file name, if any. -/
def find_session (s : PioSubsystem) (filename : String) : Option FileSession :=
  s.sessions.find? (fun f => decide (f.filename = filename))

/-- Modelled from the spec: the File Session is the sole mutation point of a file
(section 5): the session of that name is replaced, all others are left alone. -/
def put_session (s : PioSubsystem) (g : FileSession) : PioSubsystem :=
  { s with sessions := s.sessions.map (fun f => if f.filename = g.filename then g else f) }

/-- Modelled from the spec: the common frame of the File Session operations (sections 4.1
and 4.2): `SubsystemNotReady` outside the initialized window, a fault of the transport
when no session has the name, and otherwise the operation proper on that session; a
rejected operation leaves the state as it found it. -/
def with_session (s : PioSubsystem) (filename : String)
    (body : FileSession → Except ErrorKind FileSession) : Outcome × PioSubsystem :=
  if s.lifecycle = .initialized then
    match find_session s filename with
    | none => reject s .TransportFailure
    | some f =>
      match body f with
      | .error kind => reject s kind
      | .ok g => (.ok, put_session s g)
  else reject s .SubsystemNotReady

/-- Modelled from the spec: section 4.1, `initialize(communicator, component_id=0)`
establishes the process-wide state and fails with `AlreadyInitialized` if called twice
without an intervening finalize.  The default `atm_id = 0` of the header is written out by
the caller. -/
def eam_init_pio_subsystem (s : PioSubsystem) (mpicom : Int) (atm_id : Int) :
    Outcome × PioSubsystem :=
  if s.lifecycle = .initialized then reject s .AlreadyInitialized
  else (.ok, { s with lifecycle := .initialized, mpicom := mpicom, atm_id := atm_id,
                      sessions := [] })

/-- Modelled from the spec: section 4.1, `finalize()` releases all resources and fails
with `NotInitialized` if called before initialize or after a prior finalize. -/
def eam_pio_finalize (s : PioSubsystem) : Outcome × PioSubsystem :=
  if s.lifecycle = .initialized then (.ok, { s with lifecycle := .finalized, sessions := [] })
  else reject s .NotInitialized

/-- Modelled from the spec: section 4.1, `is_initialized()` is a pure query; the state is
returned as found. -/
def is_eam_pio_subsystem_inited (s : PioSubsystem) : Bool × PioSubsystem :=
  (decide (s.lifecycle = .initialized), s)

/-- Modelled from the spec: the session `register_file` opens.  A write session starts
with empty catalogs and time slot 0; a read session starts from what `storage` holds for
the name, its variables still to be declared through `get_variable`.  The open mode of a
session is Read xor Write (section 3): a mode value that is neither enumerator opens
nothing. -/
def open_session (s : PioSubsystem) (filename : String) (mode : FileMode) :
    Except ErrorKind FileSession :=
  if mode = .Write then
    .ok { filename := filename, mode := .Write, state := .Registered, dims := [], vars := [],
          decomps := [], decomp_bound := false, time_slot := 0, time_stamps := [], data := [] }
  else if mode = .Read then
    match assoc_lookup filename s.storage with
    | none => .error .TransportFailure
    | some c =>
      .ok { filename := filename, mode := .Read, state := .Registered, dims := c.dims,
            vars := [], decomps := [], decomp_bound := false, time_slot := c.time_slot,
            time_stamps := c.time_stamps, data := c.data }
  else .error .TransportFailure

/-- Modelled from the spec: section 4.2, `register_file(name, mode)`: Unregistered to
Registered; `DuplicateOpen` if a session with this name and overlapping access (one of
the two is a write) is already open.  A name whose session is Closed can be opened anew. -/
def register_file (s : PioSubsystem) (filename : String) (mode : FileMode) :
    Outcome × PioSubsystem :=
  if s.lifecycle = .initialized then
    match find_session s filename with
    | none =>
      match open_session s filename mode with
      | .error kind => reject s kind
      | .ok g => (.ok, { s with sessions := s.sessions ++ [g] })
    | some f =>
      if f.state = .Closed then
        match open_session s filename mode with
        | .error kind => reject s kind
        | .ok g => (.ok, put_session s g)
      else if f.mode = .Write ∨ mode = .Write then reject s .DuplicateOpen
      else (.ok, s)
  else reject s .SubsystemNotReady

/-- Modelled from the spec: "valid only in `Registered`".  After `eam_pio_enddef` the
kind is `DefinitionClosed`; on a closed session it is `AlreadyClosed`. -/
def require_registered (f : FileSession) : Except ErrorKind Unit :=
  match f.state with
  | .Registered => .ok ()
  | .Defined => .error .DefinitionClosed
  | .Closed => .error .AlreadyClosed

/-- Modelled from the spec: "valid only in `Defined`".  Before `eam_pio_enddef` the kind
is the "not yet defined" one of section 8; on a closed session it is `AlreadyClosed`. -/
def require_defined (f : FileSession) : Except ErrorKind Unit :=
  match f.state with
  | .Registered => .error .NotYetDefined
  | .Defined => .ok ()
  | .Closed => .error .AlreadyClosed

/-- Modelled from the spec: section 4.2, `register_dimension`: valid only in
`Registered`, not accepted on a file opened in Read mode (section 8), rejects a duplicate
name with `DuplicateDimension`; the length is a non-negative integer or the unlimited
marker (`none`). -/
def register_dimension_body (shortname longname : String) (length : Option Int)
    (f : FileSession) : Except ErrorKind FileSession :=
  match require_registered f with
  | .error kind => .error kind
  | .ok _ =>
    if f.mode = .Read then .error .TransportFailure
    else if f.dims.any (fun d => decide (d.shortname = shortname)) then
      .error .DuplicateDimension
    else
      match length with
      | none => .ok { f with dims := f.dims ++ [⟨shortname, longname, none⟩] }
      | some n =>
        if n < 0 then .error .TransportFailure
        else .ok { f with dims := f.dims ++ [⟨shortname, longname, some n.toNat⟩] }

/-- Modelled from the spec: `register_dimension` of the header, on the session of
`filename`. -/
def register_dimension (s : PioSubsystem) (filename shortname longname : String)
    (length : Option Int) : Outcome × PioSubsystem :=
  with_session s filename (register_dimension_body shortname longname length)

/-- Modelled from the spec: section 4.2, registration of a variable: valid only in
`Registered`; every referenced dimension name must exist in the catalog of the file
(`UnknownDimension` otherwise); the shape is stored as the ordered dimension list and the
optional decomposition tag is recorded.  `for_mode` is the mode the operation is for. -/
def declare_variable_body (for_mode : FileMode) (v : Variable) (f : FileSession) :
    Except ErrorKind FileSession :=
  match require_registered f with
  | .error kind => .error kind
  | .ok _ =>
    if f.mode ≠ for_mode then .error .TransportFailure
    else if v.var_dimensions.all (fun n => f.dims.any (fun d => decide (d.shortname = n))) then
      .ok { f with vars := f.vars.filter (fun w => decide (w.shortname ≠ v.shortname)) ++ [v] }
    else .error .UnknownDimension

/-- Modelled from the spec: `register_variable` of the header, for write-mode files. -/
def register_variable (s : PioSubsystem) (filename shortname longname units : String)
    (var_dimensions : List String) (dtype : Int) (pio_decomp_tag : Option String) :
    Outcome × PioSubsystem :=
  with_session s filename
    (declare_variable_body .Write ⟨shortname, longname, units, var_dimensions, dtype,
      pio_decomp_tag⟩)

/-- Modelled from the spec: `get_variable` of the header, for read-mode files; it has no
units argument. -/
def get_variable (s : PioSubsystem) (filename shortname longname : String)
    (var_dimensions : List String) (dtype : Int) (pio_decomp_tag : Option String) :
    Outcome × PioSubsystem :=
  with_session s filename
    (declare_variable_body .Read ⟨shortname, longname, "", var_dimensions, dtype,
      pio_decomp_tag⟩)

/-- Modelled from the spec: the variable catalog, by name. -/
def find_variable (f : FileSession) (varname : String) : Option Variable :=
  f.vars.find? (fun v => decide (v.shortname = varname))

/-- Modelled from the spec: section 4.2, `set_dof`: valid only in `Registered`;
associates a descriptor of `dof_len` global offsets with the decomposition tag of the
variable; a second call for the same tag overwrites the mapping. -/
def set_dof_body (varname : String) (dof_len : Int) (x_dof : List offset_t)
    (f : FileSession) : Except ErrorKind FileSession :=
  match require_registered f with
  | .error kind => .error kind
  | .ok _ =>
    match find_variable f varname with
    | none => .error .TransportFailure
    | some v =>
      match v.pio_decomp_tag with
      | none => .error .TransportFailure
      | some tag =>
        .ok { f with decomps := assoc_insert tag (x_dof.take dof_len.toNat) f.decomps }

/-- Modelled from the spec: `set_dof` of the header, on the session of `filename`. -/
def set_dof (s : PioSubsystem) (filename varname : String) (dof_len : Int)
    (x_dof : List offset_t) : Outcome × PioSubsystem :=
  with_session s filename (set_dof_body varname dof_len x_dof)

/-- Modelled from the spec: section 4.2, `set_decomp`: valid only in `Registered`;
finalizes the decomposition binding of every variable that references a tag and fails
with `IncompleteDecomposition` if a referenced tag lacks a bound descriptor. -/
def set_decomp_body (f : FileSession) : Except ErrorKind FileSession :=
  match require_registered f with
  | .error kind => .error kind
  | .ok _ =>
    if f.vars.all (fun v =>
        match v.pio_decomp_tag with
        | none => true
        | some tag => (assoc_lookup tag f.decomps).isSome) then
      .ok { f with decomp_bound := true }
    else .error .IncompleteDecomposition

/-- Modelled from the spec: `set_decomp` of the header, on the session of `filename`. -/
def set_decomp (s : PioSubsystem) (filename : String) : Outcome × PioSubsystem :=
  with_session s filename set_decomp_body

/-- Modelled from the spec: section 4.2, `eam_pio_enddef`: Registered to Defined,
irreversible. -/
def eam_pio_enddef_body (f : FileSession) : Except ErrorKind FileSession :=
  match require_registered f with
  | .error kind => .error kind
  | .ok _ => .ok { f with state := .Defined }

/-- Modelled from the spec: `eam_pio_enddef` of the header, on the session of `filename`. -/
def eam_pio_enddef (s : PioSubsystem) (filename : String) : Outcome × PioSubsystem :=
  with_session s filename eam_pio_enddef_body

/-- Modelled from the spec: section 4.2, `pio_update_time`: valid only in `Defined`,
write mode; advances the Time Slot counter by one and stamps the new slot with the time
value. -/
def pio_update_time_body (time : Real) (f : FileSession) : Except ErrorKind FileSession :=
  match require_defined f with
  | .error kind => .error kind
  | .ok _ =>
    if f.mode = .Write then
      .ok { f with time_slot := f.time_slot + 1,
                   time_stamps := assoc_insert (f.time_slot + 1) time f.time_stamps }
    else .error .TransportFailure

/-- Modelled from the spec: `pio_update_time` of the header, on the session of `filename`. -/
def pio_update_time (s : PioSubsystem) (filename : String) (time : Real) :
    Outcome × PioSubsystem :=
  with_session s filename (pio_update_time_body time)

/-- Modelled from the spec: section 4.2, the elements one transfer moves: for a
distributed variable exactly as many as the local slice of the bound decomposition, for
an undistributed one the whole buffer. -/
def transfer_slice (f : FileSession) (v : Variable) (buf : List Real) :
    Except ErrorKind (List Real) :=
  match v.pio_decomp_tag with
  | none => .ok buf
  | some tag =>
    match assoc_lookup tag f.decomps with
    | none => .error .TransportFailure
    | some offsets =>
      if buf.length < offsets.length then .error .TransportFailure
      else .ok (buf.take offsets.length)

/-- Modelled from the spec: section 4.2, `grid_write_data_array`: valid only in
`Defined`; the write targets the current Time Slot. -/
def grid_write_data_array_body (varname : String) (hbuf : List Real) (f : FileSession) :
    Except ErrorKind FileSession :=
  match require_defined f with
  | .error kind => .error kind
  | .ok _ =>
    match find_variable f varname with
    | none => .error .TransportFailure
    | some v =>
      match transfer_slice f v hbuf with
      | .error kind => .error kind
      | .ok elems => .ok { f with data := assoc_insert (varname, f.time_slot) elems f.data }

/-- Modelled from the spec: `grid_write_data_array` of the header, on the session of
`filename`. -/
def grid_write_data_array (s : PioSubsystem) (filename varname : String) (hbuf : List Real) :
    Outcome × PioSubsystem :=
  with_session s filename (grid_write_data_array_body varname hbuf)

/-- Modelled from the spec: section 4.2, `grid_read_data_array`: valid only in `Defined`;
the read targets the slot `time_index` of the caller and fails with `TimeIndexOutOfRange`
if that exceeds the known slot count of a read-mode file.  The result is the content
delivered into `hbuf`. -/
def grid_read_data_array_body (varname : String) (time_index : Int) (f : FileSession) :
    Except ErrorKind (List Real) :=
  match require_defined f with
  | .error kind => .error kind
  | .ok _ =>
    match find_variable f varname with
    | none => .error .TransportFailure
    | some v =>
      if f.mode = .Read ∧ (f.time_slot : Int) < time_index then .error .TimeIndexOutOfRange
      else if time_index < 0 then .error .TransportFailure
      else
        match assoc_lookup (varname, time_index.toNat) f.data with
        | none => .error .TransportFailure
        | some elems => transfer_slice f v elems

/-- Modelled from the spec: `grid_read_data_array` of the header: outcome, the content
delivered into `hbuf` (nothing on a rejected call), and the state, which a read leaves as
it found it. -/
def grid_read_data_array (s : PioSubsystem) (filename varname : String) (time_index : Int) :
    Outcome × Option (List Real) × PioSubsystem :=
  if s.lifecycle = .initialized then
    match find_session s filename with
    | none => (.failed .TransportFailure, none, s)
    | some f =>
      match grid_read_data_array_body varname time_index f with
      | .error kind => (.failed kind, none, s)
      | .ok elems => (.ok, some elems, s)
  else (.failed .SubsystemNotReady, none, s)

/-- Modelled from the spec: what a closing write session leaves in `storage`. -/
def FileSession.contents (f : FileSession) : FileContents :=
  { dims := f.dims, vars := f.vars, time_slot := f.time_slot, time_stamps := f.time_stamps,
    data := f.data }

/-- Modelled from the spec: the record of a closed session: the resources of the file
are released, name and mode remain. -/
def FileSession.released (f : FileSession) : FileSession :=
  { filename := f.filename, mode := f.mode, state := .Closed, dims := [], vars := [],
    decomps := [], decomp_bound := false, time_slot := 0, time_stamps := [], data := [] }

/-- Modelled from the spec: section 4.2, `eam_pio_closefile`: Defined to Closed, also
legal from Registered; releases the resources of the file; a second close is reported as
`AlreadyClosed` and does nothing. -/
def eam_pio_closefile (s : PioSubsystem) (filename : String) : Outcome × PioSubsystem :=
  if s.lifecycle = .initialized then
    match find_session s filename with
    | none => reject s .TransportFailure
    | some f =>
      if f.state = .Closed then reject s .AlreadyClosed
      else
        let t := put_session s f.released
        if f.mode = .Write then
          (.ok, { t with storage := assoc_insert filename f.contents t.storage })
        else (.ok, t)
  else reject s .SubsystemNotReady

/-- Modelled from the spec: one call of the interface, with its arguments. -/
inductive Call where
  | eam_init_pio_subsystem (mpicom atm_id : Int)
  | eam_pio_finalize
  | is_eam_pio_subsystem_inited
  | eam_pio_closefile (filename : String)
  | register_file (filename : String) (mode : FileMode)
  | set_decomp (filename : String)
  | set_dof (filename varname : String) (dof_len : Int) (x_dof : List offset_t)
  | register_dimension (filename shortname longname : String) (length : Option Int)
  | register_variable (filename shortname longname units : String)
      (var_dimensions : List String) (dtype : Int) (pio_decomp_tag : Option String)
  | get_variable (filename shortname longname : String)
      (var_dimensions : List String) (dtype : Int) (pio_decomp_tag : Option String)
  | eam_pio_enddef (filename : String)
  | pio_update_time (filename : String) (time : Real)
  | grid_read_data_array (filename varname : String) (time_index : Int)
  | grid_write_data_array (filename varname : String) (hbuf : List Real)
  deriving DecidableEq, Repr

/-- Modelled from the spec: the effect of one call: its outcome and the state it leaves.
The query always succeeds. -/
def perform (s : PioSubsystem) : Call → Outcome × PioSubsystem
  | .eam_init_pio_subsystem mpicom atm_id => eam_init_pio_subsystem s mpicom atm_id
  | .eam_pio_finalize => eam_pio_finalize s
  | .is_eam_pio_subsystem_inited => (.ok, (is_eam_pio_subsystem_inited s).2)
  | .eam_pio_closefile filename => eam_pio_closefile s filename
  | .register_file filename mode => register_file s filename mode
  | .set_decomp filename => set_decomp s filename
  | .set_dof filename varname dof_len x_dof => set_dof s filename varname dof_len x_dof
  | .register_dimension filename shortname longname length =>
    register_dimension s filename shortname longname length
  | .register_variable filename shortname longname units var_dimensions dtype tag =>
    register_variable s filename shortname longname units var_dimensions dtype tag
  | .get_variable filename shortname longname var_dimensions dtype tag =>
    get_variable s filename shortname longname var_dimensions dtype tag
  | .eam_pio_enddef filename => eam_pio_enddef s filename
  | .pio_update_time filename time => pio_update_time s filename time
  | .grid_read_data_array filename varname time_index =>
    ((grid_read_data_array s filename varname time_index).1,
     (grid_read_data_array s filename varname time_index).2.2)
  | .grid_write_data_array filename varname hbuf =>
    grid_write_data_array s filename varname hbuf

/-- Modelled from the spec: the state after a sequence of calls, made one after the
other (section 5: the operations of one process are strictly ordered). -/
def run (s : PioSubsystem) (calls : List Call) : PioSubsystem :=
  calls.foldl (fun t c => (perform t c).2) s

/-- Modelled from the spec: the scenario of section 8 up to the end of the definition
phase: the subsystem is initialized, "out.dat" is registered in Write mode with one fixed
dimension `level` of length 5 and one undistributed variable `temperature` shaped by
`level`, and `eam_pio_enddef` is called. -/
def scenario_calls : List Call :=
  [ .eam_init_pio_subsystem 0 0,
    .register_file "out.dat" .Write,
    .register_dimension "out.dat" "level" "level" (some 5),
    .register_variable "out.dat" "temperature" "temperature" "K" ["level"] 6 none,
    Call.eam_pio_enddef "out.dat" ]

/-- Modelled from the spec: the session of "out.dat" that the scenario of section 8 has
built when the definition phase ends. -/
def scenario_session : FileSession :=
  { filename := "out.dat", mode := .Write, state := .Defined,
    dims := [⟨"level", "level", some 5⟩],
    vars := [⟨"temperature", "temperature", "K", ["level"], 6, none⟩],
    decomps := [], decomp_bound := false, time_slot := 0, time_stamps := [], data := [] }

/-- Modelled from the spec: a data phase for the scenario of section 8: three time
snapshots of "out.dat", with a write of `temperature` and the registration of a second
file in between. -/
def scenario_data_phase : List Call :=
  [ .pio_update_time "out.dat" 0,
    .grid_write_data_array "out.dat" "temperature" [1, 2, 3, 4, 5],
    .pio_update_time "out.dat" 300,
    .register_file "other.dat" .Write,
    .pio_update_time "out.dat" 600 ]

/-- Modelled from the spec: the time values passed to `pio_update_time` on the file
`name` by a sequence of calls, in call order. -/
def times_passed (name : String) (calls : List Call) : List Real :=
  calls.filterMap (fun c =>
    match c with
    | .pio_update_time n t => if n = name then some t else none
    | _ => none)

/-- Proof device: in every reachable state a write session that is still in its
definition phase has not been stamped: its slot counter is 0 and no time is recorded. -/
def Unstamped (s : PioSubsystem) : Prop :=
  ∀ x ∈ s.sessions, x.mode = .Write → x.state = .Registered →
    x.time_slot = 0 ∧ x.time_stamps = []

/-- Proof device: what every reachable state satisfies: file names identify sessions
(section 3: the file name is a unique key within the subsystem), and sessions exist only
inside the initialized window (no session outlives the subsystem). -/
def WellFormed (s : PioSubsystem) : Prop :=
  (s.sessions.map (fun f => f.filename)).Nodup ∧ (s.sessions ≠ [] → s.lifecycle = .initialized)

/-- Proof device: the digits of `n`, most significant first, by recursion on `n / 10`.
`Nat.toDigits 10` computes the same list with a fuel argument. -/
def digits_msf (n : Nat) : List Char :=
  if n < 10 then [Nat.digitChar n] else digits_msf (n / 10) ++ [Nat.digitChar (n % 10)]
termination_by n
decreasing_by omega

end scorpio

/-! ## Part 3: the input checks of the `shoc_energy_total_fixer` test

`physics/shoc/tests/shoc_energy_total_fixer_tests.cpp`, `TestShocEnergyFixer::run_property`,
lines 96-119: the block "Check that the inputs make sense". -/

namespace shoc
namespace unit_test

/-- Modelled from the spec: the struct `SHOCEnergytotData` is declared in
`physics/shoc/shoc_functions_f90.hpp`, which is not part of the sources at hand, and the
spec leaves the physics data out of scope.  Kept are the fields that the input checks of
the test read: the sizes `shcol`, `nlev`, `nlevi` and the two height arrays, stored
column after column (`offset = n + s * nlev`). -/
structure SHOCEnergytotData where
  shcol : Nat
  nlev : Nat
  nlevi : Nat
  zt_grid : List Real
  zi_grid : List Real
  deriving DecidableEq, Repr

/-- The constant `nlev` of `run_property` (test line 30). -/
def nlev : Int := 5

/-- The constant `nlevi = nlev + 1` of `run_property` (test line 31). -/
def nlevi : Int := nlev + 1

/-- The Catch2 macro `REQUIRE(cond)`: a false condition fails the test case on the spot. -/
def REQUIRE (cond : Bool) : Except String Unit :=
  if cond then .ok () else .error "REQUIRE failed"

/-- Reading `a[i]` of a C array; an index outside the array has no defined value. -/
def read (a : List Real) (i : Nat) : Except String Real :=
  match a[i]? with
  | some v => .ok v
  | none => .error "index out of bounds"

/-- Body of the loop over `n` on `zt_grid` (test lines 100-107): the height is required to
be non-negative, and under the guard `n > nlev-1` the difference to the next height is
required to be negative. -/
def check_zt_level (SDS : SHOCEnergytotData) (s n : Nat) : Except String Unit := do
  let offset := n + s * SDS.nlev
  let z ← read SDS.zt_grid offset
  REQUIRE (decide (z ≥ 0))
  if (n : Int) > nlev - 1 then
    let z1 ← read SDS.zt_grid (offset + 1)
    REQUIRE (decide (z1 - z < 0))

/-- Body of the loop over `n` on `zi_grid` (test lines 110-117), with the guard
`n > nlevi-1`. -/
def check_zi_level (SDS : SHOCEnergytotData) (s n : Nat) : Except String Unit := do
  let offset := n + s * SDS.nlevi
  let z ← read SDS.zi_grid offset
  REQUIRE (decide (z ≥ 0))
  if (n : Int) > nlevi - 1 then
    let z1 ← read SDS.zi_grid (offset + 1)
    REQUIRE (decide (z1 - z < 0))

/-- The block "Check that the inputs make sense" (test lines 98-119): for each column the
loop over the `SDS.nlev` midpoint levels, then the loop over the `SDS.nlevi` interface
levels. -/
def input_checks (SDS : SHOCEnergytotData) : Except String Unit :=
  (List.range SDS.shcol).forM (fun s => do
    (List.range SDS.nlev).forM (fun n => check_zt_level SDS s n)
    (List.range SDS.nlevi).forM (fun n => check_zi_level SDS s n))

/-- Claim wording "the height at index n+1 is strictly smaller than the height at index
n": both heights exist and the second is below the first. -/
def next_is_lower (a : List Real) (i : Nat) : Bool :=
  match a[i]?, a[i + 1]? with
  | some z, some z1 => decide (z1 < z)
  | _, _ => false

/-- The check as the claim words it: for every column `s` and every level `n` that has a
following level (`n < nlev-1` on `zt_grid`, `n < nlevi-1` on `zi_grid`), the height at
index `n+1` is strictly smaller than the height at index `n`. -/
def heights_strictly_decreasing (SDS : SHOCEnergytotData) : Bool :=
  (List.range SDS.shcol).all (fun s =>
    (List.range SDS.nlev).all (fun n =>
      if (n : Int) < nlev - 1 then next_is_lower SDS.zt_grid (n + s * SDS.nlev) else true) &&
    (List.range SDS.nlevi).all (fun n =>
      if (n : Int) < nlevi - 1 then next_is_lower SDS.zi_grid (n + s * SDS.nlevi) else true))

/-- An input of the size the test uses (`shcol = 2`, `nlev = 5`) whose heights grow with
the level index: the interface heights of the test in reverse order, the midpoint heights
between them, the same in both columns. -/
def rising_grid : SHOCEnergytotData :=
  { shcol := 2, nlev := 5, nlevi := 6,
    zt_grid := [750, 2250, 4000, 6250, 9250, 750, 2250, 4000, 6250, 9250],
    zi_grid := [0, 1500, 3000, 5000, 7500, 11000, 0, 1500, 3000, 5000, 7500, 11000] }

/-- The input the test sets out to build: the interface heights of test line 45 and their
midpoints (test line 86), the same in both columns.  Test line 92 assigns the whole array
`zi_grid` where the element `zi_grid[n]` is meant; the element is taken here. -/
def falling_grid : SHOCEnergytotData :=
  { shcol := 2, nlev := 5, nlevi := 6,
    zt_grid := [9250, 6250, 4000, 2250, 750, 9250, 6250, 4000, 2250, 750],
    zi_grid := [11000, 7500, 5000, 3000, 1500, 0, 11000, 7500, 5000, 3000, 1500, 0] }

end unit_test
end shoc

namespace scorpio

/-! ## Theorems -/

theorem digits_msf_small {n : Nat} (h : n < 10) : digits_msf n = [Nat.digitChar n] := by
  rw [digits_msf]; simp [h]

theorem digits_msf_large {n : Nat} (h : ¬ n < 10) :
    digits_msf n = digits_msf (n / 10) ++ [Nat.digitChar (n % 10)] := by
  rw [digits_msf]; simp [h]

theorem toDigitsCore_eq_digits_msf (fuel : Nat) :
    ∀ (n : Nat) (ds : List Char), n < fuel →
      Nat.toDigitsCore 10 fuel n ds = digits_msf n ++ ds := by
  induction fuel with
  | zero => intro n ds h; omega
  | succ fuel ih =>
    intro n ds h
    simp only [Nat.toDigitsCore]
    by_cases hn : n < 10
    · have h0 : n / 10 = 0 := by omega
      have h1 : n % 10 = n := by omega
      simp [h0, h1, digits_msf_small hn]
    · have h0 : ¬ n / 10 = 0 := by omega
      simp only [h0, if_false]
      rw [ih (n / 10) _ (by omega), digits_msf_large hn]
      simp

theorem toDigits_eq_digits_msf (n : Nat) : Nat.toDigits 10 n = digits_msf n := by
  simp [Nat.toDigits, toDigitsCore_eq_digits_msf (n + 1) n [] (by omega)]

theorem digitChar_isDigit {d : Nat} (h : d < 10) : (Nat.digitChar d).isDigit = true := by
  interval_cases d <;> rfl

theorem digitChar_toNat {d : Nat} (h : d < 10) : (Nat.digitChar d).toNat - 48 = d := by
  interval_cases d <;> rfl

theorem digitChar_ne_zero {d : Nat} (h0 : 0 < d) (h : d < 10) : Nat.digitChar d ≠ '0' := by
  interval_cases d <;> decide

theorem digits_msf_ne_nil (n : Nat) : digits_msf n ≠ [] := by
  by_cases hn : n < 10
  · simp [digits_msf_small hn]
  · simp [digits_msf_large hn]

theorem digits_msf_isDigit (n : Nat) : ∀ c ∈ digits_msf n, c.isDigit = true := by
  induction n using Nat.strong_induction_on with
  | _ n ih =>
    by_cases hn : n < 10
    · intro c hc
      simp [digits_msf_small hn] at hc
      subst hc
      exact digitChar_isDigit hn
    · intro c hc
      rw [digits_msf_large hn] at hc
      rcases List.mem_append.mp hc with h | h
      · exact ih (n / 10) (by omega) c h
      · simp at h
        subst h
        exact digitChar_isDigit (Nat.mod_lt _ (by decide))

theorem decimal_value_append (xs : List Char) (c : Char) :
    decimal_value (xs ++ [c]) = 10 * decimal_value xs + (c.toNat - 48) := by
  simp [decimal_value, List.foldl_append]

theorem decimal_value_digits_msf (n : Nat) : decimal_value (digits_msf n) = n := by
  induction n using Nat.strong_induction_on with
  | _ n ih =>
    by_cases hn : n < 10
    · rw [digits_msf_small hn]
      simp [decimal_value, digitChar_toNat hn]
    · rw [digits_msf_large hn, decimal_value_append, ih (n / 10) (by omega),
        digitChar_toNat (Nat.mod_lt _ (by decide))]
      omega

theorem digits_msf_head (n : Nat) (h : 0 < n) :
    ∃ d, 0 < d ∧ d < 10 ∧ (digits_msf n).head? = some (Nat.digitChar d) := by
  induction n using Nat.strong_induction_on with
  | _ n ih =>
    by_cases hn : n < 10
    · exact ⟨n, h, hn, by simp [digits_msf_small hn]⟩
    · obtain ⟨d, hd0, hd, hh⟩ := ih (n / 10) (by omega) (by omega)
      refine ⟨d, hd0, hd, ?_⟩
      rw [digits_msf_large hn]
      cases hx : digits_msf (n / 10) with
      | nil => exact absurd hx (digits_msf_ne_nil _)
      | cons a as => rw [hx] at hh; simpa using hh

theorem digits_msf_leading_zero (n : Nat) (h : (digits_msf n).head? = some '0') :
    digits_msf n = ['0'] := by
  rcases Nat.eq_zero_or_pos n with h0 | hpos
  · subst h0; rw [digits_msf_small (by decide)]; rfl
  · obtain ⟨d, hd0, hd, hh⟩ := digits_msf_head n hpos
    rw [hh] at h
    exact absurd (Option.some.inj h) (digitChar_ne_zero hd0 hd)

theorem isDecimalRepr_to_string (n : Int) : IsDecimalRepr (to_string n).data n := by
  refine ⟨digits_msf n.natAbs, ?_, digits_msf_ne_nil _, digits_msf_isDigit _,
    digits_msf_leading_zero _, decimal_value_digits_msf _⟩
  unfold to_string
  by_cases hn : n < 0
  · simp [hn, toDigits_eq_digits_msf]
  · simp [hn, toDigits_eq_digits_msf]

/-! ### Claims on the definitions of the header -/

/-- Claim C1: for every extent, `get_nc_tag_name` returns the fixed netCDF dimension name
of each non-component tag, independent of the extent: EL gives "elem", LEV "lev", ILEV
"ilev", TL "tl", COL "ncol", GP "gp", NGAS "ngas", SWBND "swband", LWBND "lwband". -/
theorem get_nc_tag_name_fixed (extent : Int) :
    get_nc_tag_name .EL extent = .ok "elem" ∧
    get_nc_tag_name .LEV extent = .ok "lev" ∧
    get_nc_tag_name .ILEV extent = .ok "ilev" ∧
    get_nc_tag_name .TL extent = .ok "tl" ∧
    get_nc_tag_name .COL extent = .ok "ncol" ∧
    get_nc_tag_name .GP extent = .ok "gp" ∧
    get_nc_tag_name .NGAS extent = .ok "ngas" ∧
    get_nc_tag_name .SWBND extent = .ok "swband" ∧
    get_nc_tag_name .LWBND extent = .ok "lwband" :=
  ⟨rfl, rfl, rfl, rfl, rfl, rfl, rfl, rfl, rfl⟩

/-- Claim C2: for every integer extent `n`, `get_nc_tag_name CMP n` returns "dim" followed
by the output of `std::to_string` on `n`, and that output is the decimal representation
of `n`: a minus sign exactly for negative `n`, then the digits of `|n|`. -/
theorem get_nc_tag_name_component (n : Int) :
    get_nc_tag_name .CMP n = .ok ("dim" ++ to_string n) ∧
    IsDecimalRepr (to_string n).data n :=
  ⟨rfl, isDecimalRepr_to_string n⟩

/-- Claim C3: `get_nc_tag_name` raises the error "Field tag not supported in netcdf files"
if and only if the tag is not one of EL, LEV, ILEV, TL, COL, GP, CMP, NGAS, SWBND, LWBND;
it returns a name exactly for those ten tags, whatever the extent. -/
theorem get_nc_tag_name_error_iff (t : FieldTag) (extent : Int) :
    ((∃ msg, get_nc_tag_name t extent = .error msg) ↔ t ∉ nc_supported_tags) ∧
    (get_nc_tag_name t extent = .error "Error! Field tag not supported in netcdf files." ↔
      t ∉ nc_supported_tags) ∧
    ((∃ name, get_nc_tag_name t extent = .ok name) ↔ t ∈ nc_supported_tags) := by
  cases t <;> simp [get_nc_tag_name, nc_supported_tags, EKAT_ERROR_MSG]

/-- Claim C4: in every build configuration the header defines exactly two numeric kind
tags, `PIO_INT = 4` and `PIO_REAL`; `PIO_REAL` is 5 exactly when `SCREAM_CONFIG_IS_CMAKE`
is defined and `SCREAM_DOUBLE_PRECISION` is not, and 6 in every other configuration; it
is never equal to `PIO_INT`. -/
theorem pio_kind_tags (cfg : BuildConfig) :
    numeric_kind_tags cfg = [PIO_REAL cfg, PIO_INT] ∧
    (numeric_kind_tags cfg).length = 2 ∧
    PIO_INT = 4 ∧
    (PIO_REAL cfg = 5 ↔
      (cfg.SCREAM_CONFIG_IS_CMAKE = true ∧ cfg.SCREAM_DOUBLE_PRECISION = false)) ∧
    (PIO_REAL cfg = 6 ↔
      ¬ (cfg.SCREAM_CONFIG_IS_CMAKE = true ∧ cfg.SCREAM_DOUBLE_PRECISION = false)) ∧
    PIO_REAL cfg ≠ PIO_INT := by
  rcases cfg with ⟨a, b⟩
  cases a <;> cases b <;> simp [numeric_kind_tags, PIO_REAL, PIO_INT]

theorem find_session_filename {s : PioSubsystem} {name : String} {f : FileSession}
    (h : find_session s name = some f) : f.filename = name := by
  have := List.find?_some h
  simpa using this

theorem find_session_mem {s : PioSubsystem} {name : String} {f : FileSession}
    (h : find_session s name = some f) : f ∈ s.sessions :=
  List.mem_of_find?_eq_some h

theorem find_replace (l : List FileSession) (name : String) (f g : FileSession)
    (hg : g.filename = name)
    (h : l.find? (fun x => decide (x.filename = name)) = some f) :
    (l.map (fun x => if x.filename = g.filename then g else x)).find?
      (fun x => decide (x.filename = name)) = some g := by
  induction l with
  | nil => simp at h
  | cons x xs ih =>
    by_cases hx : x.filename = name
    · have hrep : (if x.filename = g.filename then g else x) = g := by simp [hx, hg]
      rw [List.map_cons, hrep, List.find?_cons]
      simp [hg]
    · have h2 : xs.find? (fun x => decide (x.filename = name)) = some f := by
        simpa [List.find?, hx] using h
      have hrep : (if x.filename = g.filename then g else x) = x := by simp [hx, hg]
      rw [List.map_cons, hrep, List.find?_cons]
      simp only [hx, decide_False]
      exact ih h2

theorem find_put_session {s : PioSubsystem} {name : String} {f g : FileSession}
    (h : find_session s name = some f) (hg : g.filename = name) :
    find_session (put_session s g) name = some g :=
  find_replace s.sessions name f g hg h

theorem assoc_lookup_insert_same {κ α : Type} [DecidableEq κ] (k : κ) (v : α)
    (l : List (κ × α)) : assoc_lookup k (assoc_insert k v l) = some v := by
  induction l with
  | nil => simp [assoc_insert, assoc_lookup]
  | cons x xs ih =>
    rcases x with ⟨j, w⟩
    by_cases hj : j = k
    · simp [assoc_insert, assoc_lookup, hj]
    · simp [assoc_insert, assoc_lookup, hj, ih]

theorem assoc_lookup_insert_other {κ α : Type} [DecidableEq κ] (k j : κ) (v : α)
    (l : List (κ × α)) (hne : k ≠ j) :
    assoc_lookup j (assoc_insert k v l) = assoc_lookup j l := by
  induction l with
  | nil => simp [assoc_insert, assoc_lookup, hne]
  | cons x xs ih =>
    rcases x with ⟨i, w⟩
    by_cases hi : i = k
    · subst hi
      simp [assoc_insert, assoc_lookup, hne]
    · by_cases hij : i = j
      · subst hij
        simp [assoc_insert, assoc_lookup, hi]
      · simp [assoc_insert, assoc_lookup, hi, hij, ih]

theorem run_nil (s : PioSubsystem) : run s [] = s := rfl

theorem run_cons (s : PioSubsystem) (c : Call) (cs : List Call) :
    run s (c :: cs) = run (perform s c).2 cs := rfl

theorem run_append (s : PioSubsystem) (cs ds : List Call) :
    run s (cs ++ ds) = run (run s cs) ds := by
  simp [run, List.foldl_append]

theorem run_snoc (s : PioSubsystem) (cs : List Call) (c : Call) :
    run s (cs ++ [c]) = (perform (run s cs) c).2 := by
  simp [run, List.foldl_append]

/-! ### Closing a file -/

theorem closefile_closed {s : PioSubsystem} {name : String} {f : FileSession}
    (hinit : s.lifecycle = .initialized) (hf : find_session s name = some f)
    (hc : f.state = .Closed) :
    eam_pio_closefile s name = (.failed .AlreadyClosed, s) := by
  simp [eam_pio_closefile, hinit, hf, hc, reject]

theorem closefile_ok_closed {s t : PioSubsystem} {name : String}
    (h : eam_pio_closefile s name = (.ok, t)) :
    t.lifecycle = .initialized ∧
      ∃ g, find_session t name = some g ∧ g.state = .Closed := by
  unfold eam_pio_closefile at h
  by_cases hinit : s.lifecycle = .initialized
  · simp only [hinit, if_true] at h
    cases hf : find_session s name with
    | none => simp [hf, reject] at h
    | some f =>
      simp only [hf] at h
      by_cases hc : f.state = .Closed
      · simp [hc, reject] at h
      · simp only [hc, if_false] at h
        have hname : f.released.filename = name :=
          (find_session_filename hf : f.filename = name)
        have hfind := find_put_session (g := f.released) hf hname
        by_cases hm : f.mode = .Write
        · simp only [if_pos hm] at h
          have ht := (Prod.mk.inj h).2.symm
          subst ht
          exact ⟨hinit, f.released, hfind, rfl⟩
        · simp only [if_neg hm] at h
          have ht : t = put_session s f.released := (Prod.mk.inj h).2.symm
          subst ht
          exact ⟨hinit, f.released, hfind, rfl⟩
  · simp [hinit, reject] at h

/-- Claim C8: for every file name, calling `eam_pio_closefile` a second time on an already
closed file reports `AlreadyClosed` and leaves the whole subsystem state exactly as it was
after the first close.  Stated for any state `s`: if the first close succeeds and leaves
state `t`, the second close from `t` returns `AlreadyClosed` with state `t`. -/
theorem eam_pio_closefile_twice (s t : PioSubsystem) (name : String)
    (h : eam_pio_closefile s name = (.ok, t)) :
    eam_pio_closefile t name = (.failed .AlreadyClosed, t) := by
  obtain ⟨hinit, g, hg, hc⟩ := closefile_ok_closed h
  exact closefile_closed hinit hg hc

/-- Witness of claim C8: closing "out.dat" of the section 8 scenario twice. -/
theorem eam_pio_closefile_twice_witness :
    eam_pio_closefile (run (PioSubsystem.boot []) scenario_calls) "out.dat" =
      (.ok, (eam_pio_closefile (run (PioSubsystem.boot []) scenario_calls) "out.dat").2) ∧
    eam_pio_closefile
        (eam_pio_closefile (run (PioSubsystem.boot []) scenario_calls) "out.dat").2 "out.dat" =
      (.failed .AlreadyClosed,
        (eam_pio_closefile (run (PioSubsystem.boot []) scenario_calls) "out.dat").2) :=
  ⟨Prod.ext (by decide) rfl,
    eam_pio_closefile_twice _ _ "out.dat" (Prod.ext (by decide) rfl)⟩

/-! ### Time slots -/

theorem pio_update_time_step {s : PioSubsystem} {name : String} {f : FileSession} (t : Real)
    (hinit : s.lifecycle = .initialized) (hf : find_session s name = some f)
    (hmode : f.mode = .Write) (hstate : f.state = .Defined) :
    pio_update_time s name t =
      (.ok, put_session s { f with time_slot := f.time_slot + 1,
                                   time_stamps := assoc_insert (f.time_slot + 1) t f.time_stamps }) := by
  simp [pio_update_time, with_session, hinit, hf, pio_update_time_body, require_defined,
    hstate, hmode]

/-! ### One call at a time -/

theorem with_session_cases (s : PioSubsystem) (name : String)
    (body : FileSession → Except ErrorKind FileSession) :
    (∃ kind, with_session s name body = (.failed kind, s)) ∨
    (∃ f g, s.lifecycle = .initialized ∧ find_session s name = some f ∧ body f = .ok g ∧
      with_session s name body = (.ok, put_session s g)) := by
  unfold with_session
  by_cases hinit : s.lifecycle = .initialized
  · rw [if_pos hinit]
    cases hf : find_session s name with
    | none => exact Or.inl ⟨_, rfl⟩
    | some f =>
      dsimp only
      cases hb : body f with
      | error kind => exact Or.inl ⟨kind, rfl⟩
      | ok g => exact Or.inr ⟨f, g, hinit, rfl, hb, rfl⟩
  · rw [if_neg hinit]
    exact Or.inl ⟨_, rfl⟩

theorem with_session_lifecycle (s : PioSubsystem) (name : String)
    (body : FileSession → Except ErrorKind FileSession) :
    (with_session s name body).2.lifecycle = s.lifecycle := by
  rcases with_session_cases s name body with ⟨kind, h⟩ | ⟨f, g, _, _, _, h⟩
  · rw [h]
  · rw [h]
    rfl

theorem register_file_cases (s : PioSubsystem) (name : String) (mode : FileMode) :
    (∃ kind, register_file s name mode = (.failed kind, s)) ∨
    register_file s name mode = (.ok, s) ∨
    (∃ g, s.lifecycle = .initialized ∧ find_session s name = none ∧ g.filename = name ∧
      g.state = .Registered ∧
      register_file s name mode = (.ok, { s with sessions := s.sessions ++ [g] })) ∨
    (∃ g, s.lifecycle = .initialized ∧ g.state = .Registered ∧
      register_file s name mode = (.ok, put_session s g)) := by
  have hopen : ∀ g, open_session s name mode = .ok g →
      g.filename = name ∧ g.state = .Registered := by
    intro g hg
    unfold open_session at hg
    by_cases hw : mode = .Write
    · simp only [if_pos hw, Except.ok.injEq] at hg
      subst hg
      exact ⟨rfl, rfl⟩
    · by_cases hr : mode = .Read
      · simp only [if_neg hw, if_pos hr] at hg
        cases hl : assoc_lookup name s.storage with
        | none => simp [hl] at hg
        | some c =>
          simp only [hl, Except.ok.injEq] at hg
          subst hg
          exact ⟨rfl, rfl⟩
      · simp [if_neg hw, if_neg hr] at hg
  unfold register_file
  by_cases hinit : s.lifecycle = .initialized
  · rw [if_pos hinit]
    cases hf : find_session s name with
    | none =>
      dsimp only
      cases ho : open_session s name mode with
      | error kind => exact Or.inl ⟨kind, rfl⟩
      | ok g => exact Or.inr (Or.inr (Or.inl ⟨g, hinit, rfl, (hopen g ho).1, (hopen g ho).2, rfl⟩))
    | some f =>
      dsimp only
      by_cases hc : f.state = .Closed
      · rw [if_pos hc]
        cases ho : open_session s name mode with
        | error kind => exact Or.inl ⟨kind, rfl⟩
        | ok g => exact Or.inr (Or.inr (Or.inr ⟨g, hinit, (hopen g ho).2, rfl⟩))
      · rw [if_neg hc]
        by_cases hw : f.mode = .Write ∨ mode = .Write
        · rw [if_pos hw]
          exact Or.inl ⟨_, rfl⟩
        · rw [if_neg hw]
          exact Or.inr (Or.inl rfl)
  · rw [if_neg hinit]
    exact Or.inl ⟨_, rfl⟩

theorem closefile_cases (s : PioSubsystem) (name : String) :
    (∃ kind, eam_pio_closefile s name = (.failed kind, s)) ∨
    (∃ f t, s.lifecycle = .initialized ∧ find_session s name = some f ∧
      f.state ≠ .Closed ∧ eam_pio_closefile s name = (.ok, t) ∧
      t.lifecycle = s.lifecycle ∧ t.sessions = (put_session s f.released).sessions) := by
  unfold eam_pio_closefile
  by_cases hinit : s.lifecycle = .initialized
  · rw [if_pos hinit]
    cases hf : find_session s name with
    | none => exact Or.inl ⟨_, rfl⟩
    | some f =>
      dsimp only
      by_cases hc : f.state = .Closed
      · rw [if_pos hc]
        exact Or.inl ⟨_, rfl⟩
      · rw [if_neg hc]
        by_cases hm : f.mode = .Write
        · simp only [if_pos hm]
          exact Or.inr ⟨f, _, hinit, rfl, hc, rfl, rfl, rfl⟩
        · simp only [if_neg hm]
          exact Or.inr ⟨f, _, hinit, rfl, hc, rfl, rfl, rfl⟩
  · rw [if_neg hinit]
    exact Or.inl ⟨_, rfl⟩

theorem read_state (s : PioSubsystem) (name varname : String) (time_index : Int) :
    (grid_read_data_array s name varname time_index).2.2 = s := by
  unfold grid_read_data_array
  by_cases hinit : s.lifecycle = .initialized
  · rw [if_pos hinit]
    cases hf : find_session s name with
    | none => rfl
    | some f =>
      dsimp only
      cases hb : grid_read_data_array_body varname time_index f <;> rfl
  · rw [if_neg hinit]

theorem init_lifecycle (s : PioSubsystem) (mpicom atm_id : Int) :
    (eam_init_pio_subsystem s mpicom atm_id).2.lifecycle = .initialized := by
  unfold eam_init_pio_subsystem
  by_cases hinit : s.lifecycle = .initialized
  · simp [hinit, reject]
  · simp [hinit]

theorem init_ok_iff (s : PioSubsystem) (mpicom atm_id : Int) :
    (eam_init_pio_subsystem s mpicom atm_id).1 = .ok ↔ s.lifecycle ≠ .initialized := by
  unfold eam_init_pio_subsystem
  by_cases hinit : s.lifecycle = .initialized
  · simp [hinit, reject]
  · simp [hinit]

theorem finalize_lifecycle (s : PioSubsystem) :
    (eam_pio_finalize s).2.lifecycle ≠ .initialized := by
  unfold eam_pio_finalize
  by_cases hinit : s.lifecycle = .initialized
  · simp [hinit]
  · simp [hinit, reject]

theorem perform_lifecycle (s : PioSubsystem) (c : Call)
    (hi : ∀ mpicom atm_id, c ≠ .eam_init_pio_subsystem mpicom atm_id)
    (hf : c ≠ .eam_pio_finalize) :
    (perform s c).2.lifecycle = s.lifecycle := by
  cases c with
  | eam_init_pio_subsystem mpicom atm_id => exact absurd rfl (hi mpicom atm_id)
  | eam_pio_finalize => exact absurd rfl hf
  | is_eam_pio_subsystem_inited => rfl
  | eam_pio_closefile name =>
    rcases closefile_cases s name with ⟨kind, h⟩ | ⟨f, t, _, _, _, h, hl, _⟩
    · simp [perform, h]
    · simp [perform, h, hl]
  | register_file name mode =>
    rcases register_file_cases s name mode with ⟨kind, h⟩ | h | ⟨g, _, _, _, _, h⟩ | ⟨g, _, _, h⟩ <;>
      simp [perform, h, put_session]
  | grid_read_data_array name varname time_index =>
    simp [perform, read_state]
  | set_decomp name => exact with_session_lifecycle _ _ _
  | set_dof name varname dof_len x_dof => exact with_session_lifecycle _ _ _
  | register_dimension name shortname longname length => exact with_session_lifecycle _ _ _
  | register_variable name shortname longname units dims dtype tag =>
    exact with_session_lifecycle _ _ _
  | get_variable name shortname longname dims dtype tag => exact with_session_lifecycle _ _ _
  | eam_pio_enddef name => exact with_session_lifecycle _ _ _
  | pio_update_time name time => exact with_session_lifecycle _ _ _
  | grid_write_data_array name varname hbuf => exact with_session_lifecycle _ _ _

theorem perform_stays_initialized (s : PioSubsystem) (c : Call)
    (hs : s.lifecycle = .initialized) (hf : c ≠ .eam_pio_finalize) :
    (perform s c).2.lifecycle = .initialized := by
  by_cases hi : ∃ mpicom atm_id, c = .eam_init_pio_subsystem mpicom atm_id
  · obtain ⟨mpicom, atm_id, rfl⟩ := hi
    exact init_lifecycle s mpicom atm_id
  · rw [perform_lifecycle s c (fun m a h => hi ⟨m, a, h⟩) hf]
    exact hs

theorem perform_becomes_initialized (s : PioSubsystem) (c : Call)
    (hs : s.lifecycle ≠ .initialized) (h : (perform s c).2.lifecycle = .initialized) :
    ∃ mpicom atm_id, c = .eam_init_pio_subsystem mpicom atm_id ∧ (perform s c).1 = .ok := by
  by_cases hi : ∃ mpicom atm_id, c = .eam_init_pio_subsystem mpicom atm_id
  · obtain ⟨mpicom, atm_id, rfl⟩ := hi
    exact ⟨mpicom, atm_id, rfl, (init_ok_iff s mpicom atm_id).mpr hs⟩
  · by_cases hf : c = .eam_pio_finalize
    · subst hf
      exact absurd h (finalize_lifecycle s)
    · rw [perform_lifecycle s c (fun m a h => hi ⟨m, a, h⟩) hf] at h
      exact absurd h hs

theorem initialized_iff_trace (storage : List (String × FileContents)) (calls : List Call) :
    (run (PioSubsystem.boot storage) calls).lifecycle = .initialized ↔
      ∃ pre mpicom atm_id post,
        calls = pre ++ Call.eam_init_pio_subsystem mpicom atm_id :: post ∧
        (perform (run (PioSubsystem.boot storage) pre)
          (Call.eam_init_pio_subsystem mpicom atm_id)).1 = .ok ∧
        Call.eam_pio_finalize ∉ post := by
  induction calls using List.reverseRecOn with
  | nil =>
    constructor
    · intro h
      simp [run, PioSubsystem.boot] at h
    · rintro ⟨pre, mpicom, atm_id, post, h, _⟩
      simp at h
  | append_singleton cs c ih =>
    rw [run_snoc]
    constructor
    · intro h
      by_cases hprev : (run (PioSubsystem.boot storage) cs).lifecycle = .initialized
      · obtain ⟨pre, mpicom, atm_id, post, hsplit, hok, hfin⟩ := ih.mp hprev
        have hc : c ≠ .eam_pio_finalize := by
          intro hc
          subst hc
          exact finalize_lifecycle _ h
        refine ⟨pre, mpicom, atm_id, post ++ [c], by simp [hsplit], hok, ?_⟩
        simp only [List.mem_append, List.mem_singleton, not_or]
        exact ⟨hfin, fun h => hc h.symm⟩
      · obtain ⟨mpicom, atm_id, hc, hok⟩ := perform_becomes_initialized _ c hprev h
        subst hc
        exact ⟨cs, mpicom, atm_id, [], rfl, hok, by simp⟩
    · rintro ⟨pre, mpicom, atm_id, post, hsplit, hok, hfin⟩
      rcases List.eq_nil_or_concat post with hnil | ⟨post1, d, hpost⟩
      · subst hnil
        have h2 : cs ++ [c] = pre ++ [Call.eam_init_pio_subsystem mpicom atm_id] := hsplit
        obtain ⟨h3, h4⟩ := List.append_inj' h2 rfl
        have h5 : c = Call.eam_init_pio_subsystem mpicom atm_id := by simpa using h4
        subst h5
        exact init_lifecycle _ _ _
      · subst hpost
        have h2 : cs ++ [c] =
            (pre ++ Call.eam_init_pio_subsystem mpicom atm_id :: post1) ++ [d] := by
          simpa using hsplit
        obtain ⟨h3, h4⟩ := List.append_inj' h2 rfl
        have h5 : c = d := by simpa using h4
        subst h5
        have hfin1 : Call.eam_pio_finalize ∉ post1 := fun hm => hfin (by simp [hm])
        have hc : c ≠ .eam_pio_finalize := fun hc => hfin (by simp [hc])
        have hprev := ih.mpr ⟨pre, mpicom, atm_id, post1, h3, hok, hfin1⟩
        exact perform_stays_initialized _ c hprev hc

/-- Claim C9: the I/O subsystem is initialized at most once at a time.  After any sequence
of calls from the boot state: `is_eam_pio_subsystem_inited` returns true exactly when the
sequence contains a successful `eam_init_pio_subsystem` with no `eam_pio_finalize` after it,
and it returns the state unchanged; `eam_init_pio_subsystem` fails with
`AlreadyInitialized` (state unchanged) exactly when the query is true; `eam_pio_finalize`
fails with `NotInitialized` (state unchanged) exactly when the query is false, that is
before any initialize or after a prior finalize. -/
theorem pio_subsystem_init_once (storage : List (String × FileContents)) (calls : List Call)
    (mpicom atm_id : Int) :
    ((is_eam_pio_subsystem_inited (run (PioSubsystem.boot storage) calls)).1 = true ↔
      ∃ pre m a post,
        calls = pre ++ Call.eam_init_pio_subsystem m a :: post ∧
        (perform (run (PioSubsystem.boot storage) pre)
          (Call.eam_init_pio_subsystem m a)).1 = .ok ∧
        Call.eam_pio_finalize ∉ post) ∧
    (is_eam_pio_subsystem_inited (run (PioSubsystem.boot storage) calls)).2 =
      run (PioSubsystem.boot storage) calls ∧
    (eam_init_pio_subsystem (run (PioSubsystem.boot storage) calls) mpicom atm_id =
        (.failed .AlreadyInitialized, run (PioSubsystem.boot storage) calls) ↔
      (is_eam_pio_subsystem_inited (run (PioSubsystem.boot storage) calls)).1 = true) ∧
    (eam_pio_finalize (run (PioSubsystem.boot storage) calls) =
        (.failed .NotInitialized, run (PioSubsystem.boot storage) calls) ↔
      (is_eam_pio_subsystem_inited (run (PioSubsystem.boot storage) calls)).1 = false) := by
  refine ⟨?_, rfl, ?_, ?_⟩
  · rw [← initialized_iff_trace]
    simp [is_eam_pio_subsystem_inited]
  · by_cases h : (run (PioSubsystem.boot storage) calls).lifecycle = .initialized
    · simp [eam_init_pio_subsystem, is_eam_pio_subsystem_inited, h, reject]
    · simp [eam_init_pio_subsystem, is_eam_pio_subsystem_inited, h]
  · by_cases h : (run (PioSubsystem.boot storage) calls).lifecycle = .initialized
    · simp [eam_pio_finalize, is_eam_pio_subsystem_inited, h]
    · simp [eam_pio_finalize, is_eam_pio_subsystem_inited, h, reject]

/-! ### Where a defined session comes from -/

theorem mem_put_session {s : PioSubsystem} {g x : FileSession}
    (h : x ∈ (put_session s g).sessions) :
    x = g ∨ (x ∈ s.sessions ∧ x.filename ≠ g.filename) := by
  simp only [put_session, List.mem_map] at h
  obtain ⟨y, hy, hxy⟩ := h
  by_cases hn : y.filename = g.filename
  · rw [if_pos hn] at hxy
    exact Or.inl hxy.symm
  · rw [if_neg hn] at hxy
    subst hxy
    exact Or.inr ⟨hy, hn⟩

theorem put_session_names (s : PioSubsystem) (g : FileSession) :
    (put_session s g).sessions.map (fun f => f.filename) =
      s.sessions.map (fun f => f.filename) := by
  simp only [put_session, List.map_map]
  apply List.map_congr_left
  intro x _
  by_cases hn : x.filename = g.filename
  · simp [hn]
  · simp [hn]

theorem register_dimension_body_keeps {a b : String} {n : Option Int} {f g : FileSession}
    (h : register_dimension_body a b n f = .ok g) :
    g.filename = f.filename ∧ g.state = f.state ∧ g.mode = f.mode ∧
      g.time_slot = f.time_slot ∧ g.time_stamps = f.time_stamps := by
  unfold register_dimension_body at h
  repeat' split at h
  all_goals first
    | (cases h; exact ⟨rfl, rfl, rfl, rfl, rfl⟩)
    | cases h

theorem declare_variable_body_keeps {m : FileMode} {v : Variable} {f g : FileSession}
    (h : declare_variable_body m v f = .ok g) :
    g.filename = f.filename ∧ g.state = f.state ∧ g.mode = f.mode ∧
      g.time_slot = f.time_slot ∧ g.time_stamps = f.time_stamps := by
  unfold declare_variable_body at h
  repeat' split at h
  all_goals first
    | (cases h; exact ⟨rfl, rfl, rfl, rfl, rfl⟩)
    | cases h

theorem set_dof_body_keeps {a : String} {n : Int} {x : List offset_t} {f g : FileSession}
    (h : set_dof_body a n x f = .ok g) :
    g.filename = f.filename ∧ g.state = f.state ∧ g.mode = f.mode ∧
      g.time_slot = f.time_slot ∧ g.time_stamps = f.time_stamps := by
  unfold set_dof_body at h
  repeat' split at h
  all_goals first
    | (cases h; exact ⟨rfl, rfl, rfl, rfl, rfl⟩)
    | cases h

theorem set_decomp_body_keeps {f g : FileSession} (h : set_decomp_body f = .ok g) :
    g.filename = f.filename ∧ g.state = f.state ∧ g.mode = f.mode ∧
      g.time_slot = f.time_slot ∧ g.time_stamps = f.time_stamps := by
  unfold set_decomp_body at h
  split at h
  · cases h
  · split at h
    · cases h; exact ⟨rfl, rfl, rfl, rfl, rfl⟩
    · cases h

theorem pio_update_time_body_keeps {t : Real} {f g : FileSession}
    (h : pio_update_time_body t f = .ok g) :
    g.filename = f.filename ∧ g.state = f.state ∧ g.mode = f.mode := by
  unfold pio_update_time_body at h
  repeat' split at h
  all_goals first
    | (cases h; exact ⟨rfl, rfl, rfl⟩)
    | cases h

theorem grid_write_data_array_body_keeps {a : String} {b : List Real} {f g : FileSession}
    (h : grid_write_data_array_body a b f = .ok g) :
    g.filename = f.filename ∧ g.state = f.state ∧ g.mode = f.mode ∧
      g.time_slot = f.time_slot ∧ g.time_stamps = f.time_stamps := by
  unfold grid_write_data_array_body at h
  repeat' split at h
  all_goals first
    | (cases h; exact ⟨rfl, rfl, rfl, rfl, rfl⟩)
    | cases h

theorem eam_pio_enddef_body_keeps {f g : FileSession} (h : eam_pio_enddef_body f = .ok g) :
    g.filename = f.filename := by
  unfold eam_pio_enddef_body at h
  repeat' split at h
  all_goals first
    | (cases h; rfl)
    | cases h

theorem with_session_defined_origin {s : PioSubsystem} {name : String}
    {body : FileSession → Except ErrorKind FileSession} {x : FileSession}
    (hk : ∀ f g, body f = .ok g → g.filename = f.filename ∧ g.state = f.state ∧ g.mode = f.mode)
    (hmem : x ∈ (with_session s name body).2.sessions) (hdef : x.state = .Defined) :
    ∃ f ∈ s.sessions, f.filename = x.filename ∧ f.state = .Defined := by
  rcases with_session_cases s name body with ⟨kind, h⟩ | ⟨f, g, _, hf, hb, h⟩
  · rw [h] at hmem
    exact ⟨x, hmem, rfl, hdef⟩
  · rw [h] at hmem
    rcases mem_put_session hmem with hx | ⟨hx, _⟩
    · subst hx
      obtain ⟨h1, h2, _⟩ := hk f x hb
      exact ⟨f, find_session_mem hf, h1.symm, h2 ▸ hdef⟩
    · exact ⟨x, hx, rfl, hdef⟩

theorem perform_defined_origin (s : PioSubsystem) (c : Call) (x : FileSession)
    (hmem : x ∈ (perform s c).2.sessions) (hdef : x.state = .Defined) :
    (c = .eam_pio_enddef x.filename ∧ (perform s c).1 = .ok) ∨
    (∃ f ∈ s.sessions, f.filename = x.filename ∧ f.state = .Defined) := by
  cases c with
  | eam_init_pio_subsystem mpicom atm_id =>
    right
    simp only [perform, eam_init_pio_subsystem] at hmem
    by_cases hinit : s.lifecycle = .initialized
    · rw [if_pos hinit] at hmem
      exact ⟨x, hmem, rfl, hdef⟩
    · rw [if_neg hinit] at hmem
      simp at hmem
  | eam_pio_finalize =>
    right
    simp only [perform, eam_pio_finalize] at hmem
    by_cases hinit : s.lifecycle = .initialized
    · rw [if_pos hinit] at hmem
      simp at hmem
    · rw [if_neg hinit] at hmem
      exact ⟨x, hmem, rfl, hdef⟩
  | is_eam_pio_subsystem_inited => exact Or.inr ⟨x, hmem, rfl, hdef⟩
  | eam_pio_closefile name =>
    right
    simp only [perform] at hmem
    rcases closefile_cases s name with ⟨kind, h⟩ | ⟨f, t, _, _, _, h, _, hs⟩
    · rw [h] at hmem
      exact ⟨x, hmem, rfl, hdef⟩
    · rw [h] at hmem
      simp only at hmem
      rw [hs] at hmem
      rcases mem_put_session hmem with hx | ⟨hx, _⟩
      · subst hx
        simp [FileSession.released] at hdef
      · exact ⟨x, hx, rfl, hdef⟩
  | register_file name mode =>
    right
    simp only [perform] at hmem
    rcases register_file_cases s name mode with
      ⟨kind, h⟩ | h | ⟨g, _, _, _, hg, h⟩ | ⟨g, _, hg, h⟩
    · rw [h] at hmem
      exact ⟨x, hmem, rfl, hdef⟩
    · rw [h] at hmem
      exact ⟨x, hmem, rfl, hdef⟩
    · rw [h] at hmem
      simp only [List.mem_append, List.mem_singleton] at hmem
      rcases hmem with hx | hx
      · exact ⟨x, hx, rfl, hdef⟩
      · subst hx
        rw [hg] at hdef
        cases hdef
    · rw [h] at hmem
      rcases mem_put_session hmem with hx | ⟨hx, _⟩
      · subst hx
        rw [hg] at hdef
        cases hdef
      · exact ⟨x, hx, rfl, hdef⟩
  | grid_read_data_array name varname time_index =>
    right
    simp only [perform, read_state] at hmem
    exact ⟨x, hmem, rfl, hdef⟩
  | set_decomp name =>
    exact Or.inr (with_session_defined_origin (fun _ _ h => (set_decomp_body_keeps h).imp_right (fun k => ⟨k.1, k.2.1⟩)) hmem hdef)
  | set_dof name varname dof_len x_dof =>
    exact Or.inr (with_session_defined_origin (fun _ _ h => (set_dof_body_keeps h).imp_right (fun k => ⟨k.1, k.2.1⟩)) hmem hdef)
  | register_dimension name shortname longname length =>
    exact Or.inr
      (with_session_defined_origin (fun _ _ h => (register_dimension_body_keeps h).imp_right (fun k => ⟨k.1, k.2.1⟩)) hmem hdef)
  | register_variable name shortname longname units dims dtype tag =>
    exact Or.inr
      (with_session_defined_origin (fun _ _ h => (declare_variable_body_keeps h).imp_right (fun k => ⟨k.1, k.2.1⟩)) hmem hdef)
  | get_variable name shortname longname dims dtype tag =>
    exact Or.inr
      (with_session_defined_origin (fun _ _ h => (declare_variable_body_keeps h).imp_right (fun k => ⟨k.1, k.2.1⟩)) hmem hdef)
  | pio_update_time name time =>
    exact Or.inr
      (with_session_defined_origin (fun _ _ => pio_update_time_body_keeps) hmem hdef)
  | grid_write_data_array name varname hbuf =>
    exact Or.inr
      (with_session_defined_origin (fun _ _ h => (grid_write_data_array_body_keeps h).imp_right (fun k => ⟨k.1, k.2.1⟩)) hmem hdef)
  | eam_pio_enddef name =>
    simp only [perform, eam_pio_enddef] at hmem ⊢
    rcases with_session_cases s name eam_pio_enddef_body with ⟨kind, h⟩ | ⟨f, g, _, hf, hb, h⟩
    · rw [h] at hmem
      exact Or.inr ⟨x, hmem, rfl, hdef⟩
    · rw [h] at hmem ⊢
      rcases mem_put_session hmem with hx | ⟨hx, _⟩
      · subst hx
        left
        have h1 := eam_pio_enddef_body_keeps hb
        have h2 := find_session_filename hf
        exact ⟨by rw [h1, h2], rfl⟩
      · exact Or.inr ⟨x, hx, rfl, hdef⟩

/-! ### Reachable states -/

theorem wellFormed_boot (storage : List (String × FileContents)) :
    WellFormed (PioSubsystem.boot storage) := by
  simp [WellFormed, PioSubsystem.boot]

theorem wellFormed_of_names {s t : PioSubsystem} (hw : WellFormed s)
    (hn : t.sessions.map (fun f => f.filename) = s.sessions.map (fun f => f.filename))
    (hl : t.lifecycle = s.lifecycle) : WellFormed t := by
  refine ⟨hn ▸ hw.1, fun hne => ?_⟩
  rw [hl]
  apply hw.2
  intro hs
  rw [hs] at hn
  simp at hn
  exact hne hn

theorem with_session_wellFormed {s : PioSubsystem} (name : String)
    (body : FileSession → Except ErrorKind FileSession) (hw : WellFormed s) :
    WellFormed (with_session s name body).2 := by
  rcases with_session_cases s name body with ⟨kind, h⟩ | ⟨f, g, _, _, _, h⟩
  · rw [h]; exact hw
  · rw [h]
    exact wellFormed_of_names hw (put_session_names s g) rfl

theorem perform_wellFormed (s : PioSubsystem) (c : Call) (hw : WellFormed s) :
    WellFormed (perform s c).2 := by
  cases c with
  | eam_init_pio_subsystem mpicom atm_id =>
    simp only [perform, eam_init_pio_subsystem]
    by_cases hinit : s.lifecycle = .initialized
    · rw [if_pos hinit]; exact hw
    · rw [if_neg hinit]; simp [WellFormed]
  | eam_pio_finalize =>
    simp only [perform, eam_pio_finalize]
    by_cases hinit : s.lifecycle = .initialized
    · rw [if_pos hinit]; simp [WellFormed]
    · rw [if_neg hinit]; exact hw
  | is_eam_pio_subsystem_inited => exact hw
  | eam_pio_closefile name =>
    simp only [perform]
    rcases closefile_cases s name with ⟨kind, h⟩ | ⟨f, t, _, _, _, h, hl, hs⟩
    · rw [h]; exact hw
    · rw [h]
      exact wellFormed_of_names hw (by rw [hs]; exact put_session_names s _) hl
  | register_file name mode =>
    simp only [perform]
    rcases register_file_cases s name mode with
      ⟨kind, h⟩ | h | ⟨g, hinit, hnone, hname, _, h⟩ | ⟨g, _, _, h⟩
    · rw [h]; exact hw
    · rw [h]; exact hw
    · rw [h]
      refine ⟨?_, fun _ => hinit⟩
      simp only [List.map_append, List.map_cons, List.map_nil]
      rw [List.nodup_append]
      refine ⟨hw.1, List.nodup_singleton _, ?_⟩
      intro a ha hb
      simp only [List.mem_singleton] at hb
      simp only [List.mem_map] at ha
      obtain ⟨y, hy, hya⟩ := ha
      have hnone2 := List.find?_eq_none.mp hnone y hy
      simp only [decide_eq_true_eq] at hnone2
      exact hnone2 (by rw [hya, hb, hname])
    · rw [h]
      exact wellFormed_of_names hw (put_session_names s g) rfl
  | grid_read_data_array name varname time_index =>
    simp only [perform, read_state]
    exact hw
  | set_decomp name => exact with_session_wellFormed _ _ hw
  | set_dof name varname dof_len x_dof => exact with_session_wellFormed _ _ hw
  | register_dimension name shortname longname length => exact with_session_wellFormed _ _ hw
  | register_variable name shortname longname units dims dtype tag =>
    exact with_session_wellFormed _ _ hw
  | get_variable name shortname longname dims dtype tag => exact with_session_wellFormed _ _ hw
  | eam_pio_enddef name => exact with_session_wellFormed _ _ hw
  | pio_update_time name time => exact with_session_wellFormed _ _ hw
  | grid_write_data_array name varname hbuf => exact with_session_wellFormed _ _ hw

theorem run_wellFormed (calls : List Call) :
    ∀ s : PioSubsystem, WellFormed s → WellFormed (run s calls) := by
  induction calls with
  | nil => intro s hw; exact hw
  | cons c cs ih =>
    intro s hw
    rw [run_cons]
    exact ih _ (perform_wellFormed s c hw)

theorem find_of_mem_nodup (l : List FileSession) (f : FileSession)
    (hn : (l.map (fun x => x.filename)).Nodup) (hf : f ∈ l) :
    l.find? (fun x => decide (x.filename = f.filename)) = some f := by
  induction l with
  | nil => simp at hf
  | cons x xs ih =>
    simp only [List.map_cons, List.nodup_cons] at hn
    rw [List.find?_cons]
    rcases List.mem_cons.mp hf with hx | hx
    · subst hx
      simp
    · have hne : x.filename ≠ f.filename := by
        intro he
        apply hn.1
        rw [he]
        exact List.mem_map.mpr ⟨f, hx, rfl⟩
      simp only [hne, decide_False]
      exact ih hn.2 hx

theorem find_session_of_mem {s : PioSubsystem} {f : FileSession} (hw : WellFormed s)
    (hf : f ∈ s.sessions) : find_session s f.filename = some f :=
  find_of_mem_nodup s.sessions f hw.1 hf

theorem defined_survives (s : PioSubsystem) (c : Call) (f x : FileSession)
    (hw : WellFormed s) (hf : f ∈ s.sessions) (hfd : f.state = .Defined)
    (hx : x ∈ (perform s c).2.sessions) (hname : f.filename = x.filename)
    (hxd : x.state = .Defined) :
    c ≠ .eam_pio_closefile x.filename ∧ c ≠ .eam_pio_finalize := by
  have hinit : s.lifecycle = .initialized := hw.2 (List.ne_nil_of_mem hf)
  constructor
  · intro hc
    subst hc
    simp only [perform] at hx
    have hfind : find_session s x.filename = some f := hname ▸ find_session_of_mem hw hf
    have hclosed : f.state ≠ .Closed := by rw [hfd]; decide
    have hsess : (eam_pio_closefile s x.filename).2.sessions =
        (put_session s f.released).sessions := by
      unfold eam_pio_closefile
      rw [if_pos hinit, hfind]
      dsimp only
      rw [if_neg hclosed]
      by_cases hm : f.mode = .Write
      · simp only [if_pos hm]
      · simp only [if_neg hm]
    rw [hsess] at hx
    rcases mem_put_session hx with h1 | ⟨_, h2⟩
    · rw [h1] at hxd
      simp [FileSession.released] at hxd
    · exact h2 hname.symm
  · intro hc
    subst hc
    simp only [perform, eam_pio_finalize] at hx
    rw [if_pos hinit] at hx
    simp at hx

theorem defined_trace (storage : List (String × FileContents)) (calls : List Call) :
    ∀ x ∈ (run (PioSubsystem.boot storage) calls).sessions, x.state = .Defined →
      ∃ pre post, calls = pre ++ Call.eam_pio_enddef x.filename :: post ∧
        (perform (run (PioSubsystem.boot storage) pre)
          (Call.eam_pio_enddef x.filename)).1 = .ok ∧
        Call.eam_pio_closefile x.filename ∉ post ∧ Call.eam_pio_finalize ∉ post := by
  induction calls using List.reverseRecOn with
  | nil =>
    intro x hx
    simp [run, PioSubsystem.boot] at hx
  | append_singleton cs c ih =>
    intro x hx hxd
    rw [run_snoc] at hx
    rcases perform_defined_origin _ c x hx hxd with ⟨hc, hok⟩ | ⟨f, hf, hname, hfd⟩
    · subst hc
      exact ⟨cs, [], rfl, hok, by simp, by simp⟩
    · obtain ⟨pre, post, hsplit, hok, hnc, hnf⟩ := ih f hf hfd
      have hwf := run_wellFormed cs _ (wellFormed_boot storage)
      obtain ⟨h1, h2⟩ := defined_survives _ c f x hwf hf hfd hx hname hxd
      rw [hname] at hsplit hok hnc
      refine ⟨pre, post ++ [c], by simp [hsplit], hok, ?_, ?_⟩
      · simp only [List.mem_append, List.mem_singleton, not_or]
        exact ⟨hnc, fun h => h1 h.symm⟩
      · simp only [List.mem_append, List.mem_singleton, not_or]
        exact ⟨hnf, fun h => h2 h.symm⟩

/-! ### Data transfers -/

theorem require_defined_ok {f : FileSession} {u : Unit} (h : require_defined f = .ok u) :
    f.state = .Defined := by
  unfold require_defined at h
  cases hs : f.state <;> simp [hs] at h ⊢

theorem write_ok_defined {s : PioSubsystem} {name varname : String} {hbuf : List Real}
    (h : (grid_write_data_array s name varname hbuf).1 = .ok) :
    ∃ f, find_session s name = some f ∧ f.state = .Defined := by
  unfold grid_write_data_array at h
  rcases with_session_cases s name (grid_write_data_array_body varname hbuf) with
    ⟨kind, hk⟩ | ⟨f, g, _, hf, hb, _⟩
  · rw [hk] at h
    cases h
  · refine ⟨f, hf, ?_⟩
    unfold grid_write_data_array_body at hb
    cases hr : require_defined f with
    | error kind => simp [hr] at hb
    | ok u => exact require_defined_ok hr

theorem read_ok_defined {s : PioSubsystem} {name varname : String} {time_index : Int}
    (h : (grid_read_data_array s name varname time_index).1 = .ok) :
    ∃ f, find_session s name = some f ∧ f.state = .Defined := by
  unfold grid_read_data_array at h
  by_cases hinit : s.lifecycle = .initialized
  · rw [if_pos hinit] at h
    cases hf : find_session s name with
    | none => simp [hf] at h
    | some f =>
      refine ⟨f, rfl, ?_⟩
      cases hr : require_defined f with
      | error kind => simp [hf, grid_read_data_array_body, hr] at h
      | ok u => exact require_defined_ok hr
  · rw [if_neg hinit] at h
    cases h

/-- Claim C6: for every sequence of calls from the boot state, `grid_write_data_array` and
`grid_read_data_array` on a file are accepted only when the session of that file is in
state `Defined`, which it is only after an accepted `eam_pio_enddef` on that file with no
close of the file and no finalize since; and a transfer attempted while the file is in
state `Registered` is rejected (kind "not yet defined"), leaves the state as it was and
delivers nothing into the read buffer. -/
theorem data_transfer_only_when_defined (storage : List (String × FileContents))
    (calls : List Call) (name varname : String) (hbuf : List Real) (time_index : Int) :
    (((grid_write_data_array (run (PioSubsystem.boot storage) calls) name varname hbuf).1 = .ok ∨
      (grid_read_data_array (run (PioSubsystem.boot storage) calls) name varname
        time_index).1 = .ok) →
      ∃ f, find_session (run (PioSubsystem.boot storage) calls) name = some f ∧
        f.state = .Defined ∧
        ∃ pre post, calls = pre ++ Call.eam_pio_enddef name :: post ∧
          (perform (run (PioSubsystem.boot storage) pre) (Call.eam_pio_enddef name)).1 = .ok ∧
          Call.eam_pio_closefile name ∉ post ∧ Call.eam_pio_finalize ∉ post) ∧
    (∀ f, find_session (run (PioSubsystem.boot storage) calls) name = some f →
      f.state = .Registered →
      grid_write_data_array (run (PioSubsystem.boot storage) calls) name varname hbuf =
        (.failed .NotYetDefined, run (PioSubsystem.boot storage) calls) ∧
      grid_read_data_array (run (PioSubsystem.boot storage) calls) name varname time_index =
        (.failed .NotYetDefined, none, run (PioSubsystem.boot storage) calls)) := by
  constructor
  · intro h
    have hdef : ∃ f, find_session (run (PioSubsystem.boot storage) calls) name = some f ∧
        f.state = .Defined := by
      rcases h with h | h
      · exact write_ok_defined h
      · exact read_ok_defined h
    obtain ⟨f, hf, hfd⟩ := hdef
    refine ⟨f, hf, hfd, ?_⟩
    have hname := find_session_filename hf
    have := defined_trace storage calls f (find_session_mem hf) hfd
    rw [hname] at this
    exact this
  · intro f hf hreg
    have hwf := run_wellFormed calls _ (wellFormed_boot storage)
    have hinit := hwf.2 (List.ne_nil_of_mem (find_session_mem hf))
    constructor
    · simp [grid_write_data_array, with_session, hinit, hf, grid_write_data_array_body,
        require_defined, hreg, reject]
    · simp [grid_read_data_array, hinit, hf, grid_read_data_array_body, require_defined, hreg]

/-- Witness of claim C6: in the section 8 scenario the write after `eam_pio_enddef` is
accepted, and the same write before `eam_pio_enddef` is rejected without a change. -/
theorem data_transfer_only_when_defined_witness :
    (grid_write_data_array (run (PioSubsystem.boot []) scenario_calls) "out.dat" "temperature"
      [1, 2, 3, 4, 5]).1 = .ok ∧
    (∃ f, find_session (run (PioSubsystem.boot []) scenario_calls) "out.dat" = some f ∧
      f.state = .Defined ∧
      ∃ pre post, scenario_calls = pre ++ Call.eam_pio_enddef "out.dat" :: post ∧
        (perform (run (PioSubsystem.boot []) pre) ( Call.eam_pio_enddef "out.dat")).1 = .ok ∧
        Call.eam_pio_closefile "out.dat" ∉ post ∧ Call.eam_pio_finalize ∉ post) ∧
    grid_write_data_array (run (PioSubsystem.boot []) (scenario_calls.take 4)) "out.dat"
        "temperature" [1, 2, 3, 4, 5] =
      (.failed .NotYetDefined, run (PioSubsystem.boot []) (scenario_calls.take 4)) :=
  ⟨by decide,
    (data_transfer_only_when_defined [] scenario_calls "out.dat" "temperature"
      [1, 2, 3, 4, 5] 0).1 (Or.inl (by decide)),
    ((data_transfer_only_when_defined [] (scenario_calls.take 4) "out.dat" "temperature"
      [1, 2, 3, 4, 5] 0).2
      { scenario_session with state := .Registered } (by decide) rfl).1⟩

/-! ### Time slots along a sequence of calls -/

theorem read_ne_write : FileMode.Read ≠ FileMode.Write := by decide

theorem open_session_registered {s : PioSubsystem} {name : String} {mode : FileMode}
    {g : FileSession} (h : open_session s name mode = .ok g) :
    g.filename = name ∧ g.state = .Registered ∧
      (g.mode = .Write → g.time_slot = 0 ∧ g.time_stamps = []) := by
  unfold open_session at h
  by_cases hw : mode = .Write
  · simp only [if_pos hw, Except.ok.injEq] at h
    subst h
    exact ⟨rfl, rfl, fun _ => ⟨rfl, rfl⟩⟩
  · by_cases hr : mode = .Read
    · simp only [if_neg hw, if_pos hr] at h
      cases hl : assoc_lookup name s.storage with
      | none => simp [hl] at h
      | some c =>
        simp only [hl, Except.ok.injEq] at h
        subst h
        exact ⟨rfl, rfl, fun hm => absurd hm read_ne_write⟩
    · simp [if_neg hw, if_neg hr] at h

theorem register_file_sessions (s : PioSubsystem) (name : String) (mode : FileMode)
    (x : FileSession) (hx : x ∈ (register_file s name mode).2.sessions) :
    x ∈ s.sessions ∨
    (x.filename = name ∧ x.state = .Registered ∧
      (x.mode = .Write → x.time_slot = 0 ∧ x.time_stamps = [])) := by
  unfold register_file at hx
  by_cases hinit : s.lifecycle = .initialized
  · rw [if_pos hinit] at hx
    cases hf : find_session s name with
    | none =>
      rw [hf] at hx
      dsimp only at hx
      cases ho : open_session s name mode with
      | error kind =>
        rw [ho] at hx
        exact Or.inl hx
      | ok g =>
        rw [ho] at hx
        simp only [List.mem_append, List.mem_singleton] at hx
        rcases hx with hx | hx
        · exact Or.inl hx
        · subst hx
          exact Or.inr (open_session_registered ho)
    | some f =>
      rw [hf] at hx
      dsimp only at hx
      by_cases hc : f.state = .Closed
      · rw [if_pos hc] at hx
        cases ho : open_session s name mode with
        | error kind =>
          rw [ho] at hx
          exact Or.inl hx
        | ok g =>
          rw [ho] at hx
          rcases mem_put_session hx with hx | ⟨hx, _⟩
          · subst hx
            exact Or.inr (open_session_registered ho)
          · exact Or.inl hx
      · rw [if_neg hc] at hx
        by_cases hw : f.mode = .Write ∨ mode = .Write
        · rw [if_pos hw] at hx
          exact Or.inl hx
        · rw [if_neg hw] at hx
          exact Or.inl hx
  · rw [if_neg hinit] at hx
    exact Or.inl hx

theorem require_registered_ok {f : FileSession} {u : Unit} (h : require_registered f = .ok u) :
    f.state = .Registered := by
  unfold require_registered at h
  cases hs : f.state <;> simp [hs] at h ⊢

theorem eam_pio_enddef_body_ok {f g : FileSession} (h : eam_pio_enddef_body f = .ok g) :
    f.state = .Registered ∧ g = { f with state := .Defined } := by
  unfold eam_pio_enddef_body at h
  cases hr : require_registered f with
  | error kind => simp [hr] at h
  | ok u =>
    simp only [hr, Except.ok.injEq] at h
    exact ⟨require_registered_ok hr, h.symm⟩

theorem pio_update_time_body_ok {t : Real} {f g : FileSession}
    (h : pio_update_time_body t f = .ok g) : f.state = .Defined := by
  unfold pio_update_time_body at h
  cases hr : require_defined f with
  | error kind => simp [hr] at h
  | ok u => exact require_defined_ok hr

theorem with_session_unstamped {s : PioSubsystem} (name : String)
    (body : FileSession → Except ErrorKind FileSession)
    (hk : ∀ f g, body f = .ok g → g.state = .Registered →
      f.state = .Registered ∧ g.mode = f.mode ∧ g.time_slot = f.time_slot ∧
        g.time_stamps = f.time_stamps)
    (hu : Unstamped s) : Unstamped (with_session s name body).2 := by
  rcases with_session_cases s name body with ⟨kind, h⟩ | ⟨f, g, _, hf, hb, h⟩
  · rw [h]; exact hu
  · rw [h]
    intro x hx hm hr
    rcases mem_put_session hx with hxg | ⟨hx, _⟩
    · subst hxg
      obtain ⟨h1, h2, h3, h4⟩ := hk f x hb hr
      rw [h3, h4]
      exact hu f (find_session_mem hf) (h2 ▸ hm) h1
    · exact hu x hx hm hr

theorem perform_unstamped (s : PioSubsystem) (c : Call) (hu : Unstamped s) :
    Unstamped (perform s c).2 := by
  cases c with
  | eam_init_pio_subsystem mpicom atm_id =>
    simp only [perform, eam_init_pio_subsystem]
    by_cases hinit : s.lifecycle = .initialized
    · rw [if_pos hinit]; exact hu
    · rw [if_neg hinit]; intro x hx; simp at hx
  | eam_pio_finalize =>
    simp only [perform, eam_pio_finalize]
    by_cases hinit : s.lifecycle = .initialized
    · rw [if_pos hinit]; intro x hx; simp at hx
    · rw [if_neg hinit]; exact hu
  | is_eam_pio_subsystem_inited => exact hu
  | eam_pio_closefile name =>
    simp only [perform]
    rcases closefile_cases s name with ⟨kind, h⟩ | ⟨f, t, _, _, _, h, _, hs⟩
    · rw [h]; exact hu
    · rw [h]
      intro x hx hm hr
      simp only at hx
      rw [hs] at hx
      rcases mem_put_session hx with hxg | ⟨hx, _⟩
      · subst hxg
        simp [FileSession.released] at hr
      · exact hu x hx hm hr
  | register_file name mode =>
    intro x hx hm hr
    rcases register_file_sessions s name mode x hx with h | ⟨_, _, h⟩
    · exact hu x h hm hr
    · exact h hm
  | grid_read_data_array name varname time_index =>
    simp only [perform, read_state]
    exact hu
  | set_decomp name =>
    exact with_session_unstamped _ _
      (fun _ _ h hr => by
        obtain ⟨_, h2, h3, h4, h5⟩ := set_decomp_body_keeps h
        exact ⟨h2 ▸ hr, h3, h4, h5⟩) hu
  | set_dof name varname dof_len x_dof =>
    exact with_session_unstamped _ _
      (fun _ _ h hr => by
        obtain ⟨_, h2, h3, h4, h5⟩ := set_dof_body_keeps h
        exact ⟨h2 ▸ hr, h3, h4, h5⟩) hu
  | register_dimension name shortname longname length =>
    exact with_session_unstamped _ _
      (fun _ _ h hr => by
        obtain ⟨_, h2, h3, h4, h5⟩ := register_dimension_body_keeps h
        exact ⟨h2 ▸ hr, h3, h4, h5⟩) hu
  | register_variable name shortname longname units dims dtype tag =>
    exact with_session_unstamped _ _
      (fun _ _ h hr => by
        obtain ⟨_, h2, h3, h4, h5⟩ := declare_variable_body_keeps h
        exact ⟨h2 ▸ hr, h3, h4, h5⟩) hu
  | get_variable name shortname longname dims dtype tag =>
    exact with_session_unstamped _ _
      (fun _ _ h hr => by
        obtain ⟨_, h2, h3, h4, h5⟩ := declare_variable_body_keeps h
        exact ⟨h2 ▸ hr, h3, h4, h5⟩) hu
  | grid_write_data_array name varname hbuf =>
    exact with_session_unstamped _ _
      (fun _ _ h hr => by
        obtain ⟨_, h2, h3, h4, h5⟩ := grid_write_data_array_body_keeps h
        exact ⟨h2 ▸ hr, h3, h4, h5⟩) hu
  | eam_pio_enddef name =>
    exact with_session_unstamped _ _
      (fun f g h hr => by
        obtain ⟨_, hg⟩ := eam_pio_enddef_body_ok h
        subst hg
        cases hr) hu
  | pio_update_time name time =>
    exact with_session_unstamped _ _
      (fun f g h hr => by
        have h1 := pio_update_time_body_ok h
        obtain ⟨_, h2, _⟩ := pio_update_time_body_keeps h
        rw [h2, h1] at hr
        cases hr) hu

theorem run_unstamped (calls : List Call) :
    ∀ s : PioSubsystem, Unstamped s → Unstamped (run s calls) := by
  induction calls with
  | nil => intro s hu; exact hu
  | cons c cs ih =>
    intro s hu
    rw [run_cons]
    exact ih _ (perform_unstamped s c hu)

theorem unstamped_boot (storage : List (String × FileContents)) :
    Unstamped (PioSubsystem.boot storage) := by
  intro x hx
  simp [PioSubsystem.boot] at hx

theorem find_replace_other (l : List FileSession) (name : String) (g : FileSession)
    (hg : g.filename ≠ name) :
    (l.map (fun x => if x.filename = g.filename then g else x)).find?
      (fun x => decide (x.filename = name)) =
    l.find? (fun x => decide (x.filename = name)) := by
  induction l with
  | nil => rfl
  | cons x xs ih =>
    rw [List.map_cons, List.find?_cons, List.find?_cons, ih]
    by_cases hx : x.filename = g.filename
    · have hxn : ¬ x.filename = name := fun h => hg (hx ▸ h)
      simp [hx, hg, hxn]
    · simp [hx]

theorem find_put_other {s : PioSubsystem} {name : String} {g : FileSession}
    (hg : g.filename ≠ name) : find_session (put_session s g) name = find_session s name :=
  find_replace_other s.sessions name g hg

theorem find_session_congr {s t : PioSubsystem} (name : String) (h : t.sessions = s.sessions) :
    find_session t name = find_session s name := by
  unfold find_session
  rw [h]

theorem with_session_keeps_clock {s : PioSubsystem} {name n : String}
    {body : FileSession → Except ErrorKind FileSession} {g : FileSession}
    (hg : find_session s name = some g)
    (hfn : ∀ f g2, body f = .ok g2 → g2.filename = f.filename)
    (hk : n = name → ∀ g2, body g = .ok g2 →
      g2.state = g.state ∧ g2.mode = g.mode ∧ g2.time_slot = g.time_slot ∧
        g2.time_stamps = g.time_stamps) :
    ∃ g2, find_session (with_session s n body).2 name = some g2 ∧
      g2.state = g.state ∧ g2.mode = g.mode ∧ g2.time_slot = g.time_slot ∧
      g2.time_stamps = g.time_stamps := by
  rcases with_session_cases s n body with ⟨kind, h⟩ | ⟨f, g2, _, hf, hb, h⟩
  · rw [h]
    exact ⟨g, hg, rfl, rfl, rfl, rfl⟩
  · rw [h]
    by_cases hn : n = name
    · subst hn
      have hfg : f = g := Option.some.inj (hf.symm.trans hg)
      subst hfg
      have hname : g2.filename = n := (hfn f g2 hb).trans (find_session_filename hf)
      exact ⟨g2, find_put_session hf hname, hk rfl g2 hb⟩
    · have hname : g2.filename ≠ name := by
        rw [hfn f g2 hb, find_session_filename hf]
        exact hn
      exact ⟨g, by rw [find_put_other hname]; exact hg, rfl, rfl, rfl, rfl⟩

theorem perform_keeps_clock (s : PioSubsystem) (c : Call) (name : String) (g : FileSession)
    (hinit : s.lifecycle = .initialized) (hg : find_session s name = some g)
    (hd : g.state = .Defined) (hm : g.mode = .Write)
    (hc1 : c ≠ .eam_pio_closefile name) (hc2 : c ≠ .eam_pio_finalize)
    (hc3 : ∀ t, c ≠ .pio_update_time name t) :
    ∃ g2, find_session (perform s c).2 name = some g2 ∧
      g2.state = g.state ∧ g2.mode = g.mode ∧ g2.time_slot = g.time_slot ∧
      g2.time_stamps = g.time_stamps := by
  have hsame : ∃ g2, find_session s name = some g2 ∧
      g2.state = g.state ∧ g2.mode = g.mode ∧ g2.time_slot = g.time_slot ∧
      g2.time_stamps = g.time_stamps := ⟨g, hg, rfl, rfl, rfl, rfl⟩
  cases c with
  | eam_init_pio_subsystem mpicom atm_id =>
    simp only [perform, eam_init_pio_subsystem]
    rw [if_pos hinit]
    exact hsame
  | eam_pio_finalize => exact absurd rfl hc2
  | is_eam_pio_subsystem_inited => exact hsame
  | eam_pio_closefile n =>
    have hn : n ≠ name := fun h => hc1 (by rw [h])
    simp only [perform]
    rcases closefile_cases s n with ⟨kind, h⟩ | ⟨f, t, _, hf, _, h, _, hs⟩
    · rw [h]; exact hsame
    · rw [h]
      have hname : f.released.filename ≠ name := by
        show f.filename ≠ name
        rw [find_session_filename hf]
        exact hn
      refine ⟨g, ?_, rfl, rfl, rfl, rfl⟩
      rw [find_session_congr name hs, find_put_other hname]
      exact hg
  | register_file n mode =>
    simp only [perform]
    unfold register_file
    rw [if_pos hinit]
    by_cases hn : n = name
    · subst hn
      rw [hg]
      dsimp only
      have hc : ¬ g.state = .Closed := by rw [hd]; decide
      rw [if_neg hc, if_pos (Or.inl hm)]
      exact hsame
    · cases hf : find_session s n with
      | none =>
        dsimp only
        cases ho : open_session s n mode with
        | error kind => exact hsame
        | ok g2 =>
          refine ⟨g, ?_, rfl, rfl, rfl, rfl⟩
          show List.find? _ (s.sessions ++ [g2]) = some g
          rw [List.find?_append]
          have : List.find? (fun f => decide (f.filename = name)) s.sessions = some g := hg
          rw [this]
          rfl
      | some f =>
        dsimp only
        by_cases hc : f.state = .Closed
        · rw [if_pos hc]
          cases ho : open_session s n mode with
          | error kind => exact hsame
          | ok g2 =>
            have hname : g2.filename ≠ name := by
              rw [(open_session_registered ho).1]
              exact hn
            refine ⟨g, ?_, rfl, rfl, rfl, rfl⟩
            show find_session (put_session s g2) name = some g
            rw [find_put_other hname]
            exact hg
        · rw [if_neg hc]
          by_cases hw : f.mode = .Write ∨ mode = .Write
          · rw [if_pos hw]; exact hsame
          · rw [if_neg hw]; exact hsame
  | grid_read_data_array n varname time_index =>
    simp only [perform, read_state]
    exact hsame
  | set_decomp n =>
    exact with_session_keeps_clock hg (fun _ _ h => (set_decomp_body_keeps h).1)
      (fun _ _ h => (set_decomp_body_keeps h).2)
  | set_dof n varname dof_len x_dof =>
    exact with_session_keeps_clock hg (fun _ _ h => (set_dof_body_keeps h).1)
      (fun _ _ h => (set_dof_body_keeps h).2)
  | register_dimension n shortname longname length =>
    exact with_session_keeps_clock hg (fun _ _ h => (register_dimension_body_keeps h).1)
      (fun _ _ h => (register_dimension_body_keeps h).2)
  | register_variable n shortname longname units dims dtype tag =>
    exact with_session_keeps_clock hg (fun _ _ h => (declare_variable_body_keeps h).1)
      (fun _ _ h => (declare_variable_body_keeps h).2)
  | get_variable n shortname longname dims dtype tag =>
    exact with_session_keeps_clock hg (fun _ _ h => (declare_variable_body_keeps h).1)
      (fun _ _ h => (declare_variable_body_keeps h).2)
  | grid_write_data_array n varname hbuf =>
    exact with_session_keeps_clock hg (fun _ _ h => (grid_write_data_array_body_keeps h).1)
      (fun _ _ h => (grid_write_data_array_body_keeps h).2)
  | eam_pio_enddef n =>
    exact with_session_keeps_clock hg (fun _ _ h => eam_pio_enddef_body_keeps h)
      (fun _ g2 h => by
        have h1 := (eam_pio_enddef_body_ok h).1
        rw [hd] at h1
        cases h1)
  | pio_update_time n time =>
    exact with_session_keeps_clock hg (fun _ _ h => (pio_update_time_body_keeps h).1)
      (fun hn g2 _ => absurd (by rw [hn]) (hc3 time))

theorem times_passed_append (name : String) (xs ys : List Call) :
    times_passed name (xs ++ ys) = times_passed name xs ++ times_passed name ys := by
  simp [times_passed, List.filterMap_append]

theorem times_passed_other (name : String) (c : Call)
    (hc : ∀ t, c ≠ .pio_update_time name t) : times_passed name [c] = [] := by
  cases c with
  | pio_update_time n t =>
    have hn : ¬ n = name := fun h => hc t (by rw [h])
    simp [times_passed, hn]
  | _ => simp [times_passed]

theorem times_passed_same (name : String) (t : Real) :
    times_passed name [Call.pio_update_time name t] = [t] := by
  simp [times_passed]

theorem slots_after_enddef (storage : List (String × FileContents)) (pre : List Call)
    (name : String) (f : FileSession)
    (hf : find_session (run (PioSubsystem.boot storage) pre) name = some f)
    (hmode : f.mode = .Write)
    (hdef : (perform (run (PioSubsystem.boot storage) pre) (Call.eam_pio_enddef name)).1 = .ok) :
    ∀ post : List Call, Call.eam_pio_closefile name ∉ post → Call.eam_pio_finalize ∉ post →
      (run (PioSubsystem.boot storage) (pre ++ Call.eam_pio_enddef name :: post)).lifecycle =
        .initialized ∧
      ∃ g, find_session (run (PioSubsystem.boot storage)
          (pre ++ Call.eam_pio_enddef name :: post)) name = some g ∧
        g.state = .Defined ∧ g.mode = .Write ∧
        g.time_slot = (times_passed name post).length ∧
        (∀ i, i < (times_passed name post).length →
          assoc_lookup (i + 1) g.time_stamps = (times_passed name post)[i]?) ∧
        assoc_lookup 0 g.time_stamps = none := by
  intro post
  induction post using List.reverseRecOn with
  | nil =>
    intro _ _
    have hrun : run (PioSubsystem.boot storage) (pre ++ [Call.eam_pio_enddef name]) =
        (perform (run (PioSubsystem.boot storage) pre) (Call.eam_pio_enddef name)).2 :=
      run_snoc _ _ _
    rw [hrun]
    simp only [perform, eam_pio_enddef] at hdef ⊢
    rcases with_session_cases (run (PioSubsystem.boot storage) pre) name eam_pio_enddef_body with
      ⟨kind, h⟩ | ⟨f2, g, hinit, hf2, hb, h⟩
    · rw [h] at hdef
      cases hdef
    · rw [h]
      have hfg : f2 = f := Option.some.inj (hf2.symm.trans hf)
      subst hfg
      obtain ⟨hreg, hg⟩ := eam_pio_enddef_body_ok hb
      have hu := run_unstamped pre _ (unstamped_boot storage) f2 (find_session_mem hf) hmode hreg
      have hname : g.filename = name := by
        rw [hg]
        exact (find_session_filename hf : f2.filename = name)
      refine ⟨hinit, g, find_put_session hf hname, ?_, ?_, ?_, ?_, ?_⟩
      · rw [hg]
      · rw [hg]; exact hmode
      · rw [hg]; simpa [times_passed] using hu.1
      · intro i hi
        simp [times_passed] at hi
      · rw [hg]
        show assoc_lookup 0 f2.time_stamps = none
        rw [hu.2]
        rfl
  | append_singleton post c ih =>
    intro hclose hfin
    have hclose1 : Call.eam_pio_closefile name ∉ post := fun h => hclose (by simp [h])
    have hfin1 : Call.eam_pio_finalize ∉ post := fun h => hfin (by simp [h])
    have hc1 : c ≠ .eam_pio_closefile name := fun h => hclose (by simp [h])
    have hc2 : c ≠ .eam_pio_finalize := fun h => hfin (by simp [h])
    obtain ⟨hinit, g, hg, hd, hm, hslot, hnew, hzero⟩ := ih hclose1 hfin1
    have hrun : run (PioSubsystem.boot storage)
          (pre ++ Call.eam_pio_enddef name :: (post ++ [c])) =
        (perform (run (PioSubsystem.boot storage) (pre ++ Call.eam_pio_enddef name :: post))
          c).2 := by
      rw [← run_snoc]
      simp
    rw [hrun]
    refine ⟨perform_stays_initialized _ c hinit hc2, ?_⟩
    by_cases hc3 : ∃ t, c = .pio_update_time name t
    · obtain ⟨t, rfl⟩ := hc3
      have hstep := pio_update_time_step t hinit hg hm hd
      simp only [perform, hstep]
      have hname : g.filename = name := find_session_filename hg
      refine ⟨_, find_put_session hg hname, hd, hm, ?_, ?_, ?_⟩
      · simp [times_passed_append, times_passed_same, hslot]
      · intro i hi
        rw [times_passed_append, times_passed_same] at hi ⊢
        simp only [List.length_append, List.length_singleton] at hi
        by_cases hlast : i = (times_passed name post).length
        · subst hlast
          show assoc_lookup _ (assoc_insert (g.time_slot + 1) t g.time_stamps) = _
          rw [hslot, assoc_lookup_insert_same]
          simp
        · have hlt : i < (times_passed name post).length := by omega
          show assoc_lookup _ (assoc_insert (g.time_slot + 1) t g.time_stamps) = _
          rw [assoc_lookup_insert_other _ _ _ _ (by omega), hnew i hlt]
          rw [List.getElem?_append_left hlt]
      · show assoc_lookup 0 (assoc_insert (g.time_slot + 1) t g.time_stamps) = none
        rw [assoc_lookup_insert_other _ _ _ _ (by omega)]
        exact hzero
    · have hc3n : ∀ t, c ≠ .pio_update_time name t := fun t h => hc3 ⟨t, h⟩
      obtain ⟨g2, hg2, h1, h2, h3, h4⟩ :=
        perform_keeps_clock _ c name g hinit hg hd hm hc1 hc2 hc3n
      refine ⟨g2, hg2, h1.trans hd, h2.trans hm, ?_, ?_, ?_⟩
      · rw [times_passed_append, times_passed_other name c hc3n, h3, hslot]
        simp
      · intro i hi
        rw [times_passed_append, times_passed_other name c hc3n, List.append_nil] at hi ⊢
        rw [h4]
        exact hnew i hi
      · rw [h4]; exact hzero

theorem times_passed_map (name : String) (ts : List Real) :
    times_passed name (ts.map (Call.pio_update_time name)) = ts := by
  induction ts with
  | nil => rfl
  | cons t ts ih =>
    have h := times_passed_append name [Call.pio_update_time name t]
      (ts.map (Call.pio_update_time name))
    simp only [List.singleton_append] at h
    rw [List.map_cons, h, times_passed_same, ih]
    rfl

/-- Claim C7: on a write-mode file, from the accepted `eam_pio_enddef` on (state `Defined`,
no close of the file and no finalize in between), every `pio_update_time` call on the file
is accepted and yields the slot numbered one more than the calls before it (the first call
yields slot 1); after K such calls the slot counter equals K, the time value recorded for
slot i is the value passed at the i-th call, in call order, and slot 0 holds nothing.
Calls on other files and data transfers may stand in between. -/
theorem pio_update_time_slots (storage : List (String × FileContents)) (pre post : List Call)
    (name : String) (f : FileSession)
    (hf : find_session (run (PioSubsystem.boot storage) pre) name = some f)
    (hmode : f.mode = .Write)
    (hdef : (perform (run (PioSubsystem.boot storage) pre) (Call.eam_pio_enddef name)).1 = .ok)
    (hclose : Call.eam_pio_closefile name ∉ post) (hfin : Call.eam_pio_finalize ∉ post) :
    (∀ before t after, post = before ++ Call.pio_update_time name t :: after →
      (perform (run (PioSubsystem.boot storage) (pre ++ Call.eam_pio_enddef name :: before))
        (Call.pio_update_time name t)).1 = .ok ∧
      ∃ g, find_session (run (PioSubsystem.boot storage)
          (pre ++ Call.eam_pio_enddef name :: (before ++ [Call.pio_update_time name t])))
          name = some g ∧
        g.time_slot = (times_passed name before).length + 1) ∧
    ∃ g, find_session (run (PioSubsystem.boot storage)
        (pre ++ Call.eam_pio_enddef name :: post)) name = some g ∧
      g.state = .Defined ∧
      g.time_slot = (times_passed name post).length ∧
      (∀ i, i < (times_passed name post).length →
        assoc_lookup (i + 1) g.time_stamps = (times_passed name post)[i]?) ∧
      assoc_lookup 0 g.time_stamps = none := by
  constructor
  · intro before t after hsplit
    have hclose1 : Call.eam_pio_closefile name ∉ before :=
      fun h => hclose (by rw [hsplit]; simp [h])
    have hfin1 : Call.eam_pio_finalize ∉ before :=
      fun h => hfin (by rw [hsplit]; simp [h])
    obtain ⟨hinit, g, hg, hd, hm, _⟩ :=
      slots_after_enddef storage pre name f hf hmode hdef before hclose1 hfin1
    constructor
    · simp only [perform]
      rw [pio_update_time_step t hinit hg hm hd]
    · have hclose2 : Call.eam_pio_closefile name ∉ before ++ [Call.pio_update_time name t] := by
        simp only [List.mem_append, List.mem_singleton, not_or]
        exact ⟨hclose1, by simp⟩
      have hfin2 : Call.eam_pio_finalize ∉ before ++ [Call.pio_update_time name t] := by
        simp only [List.mem_append, List.mem_singleton, not_or]
        exact ⟨hfin1, by simp⟩
      obtain ⟨_, g2, hg2, _, _, hslot2, _⟩ :=
        slots_after_enddef storage pre name f hf hmode hdef _ hclose2 hfin2
      refine ⟨g2, hg2, ?_⟩
      rw [hslot2, times_passed_append, times_passed_same]
      simp
  · obtain ⟨_, g, hg, hd, _, hslot, hnew, hzero⟩ :=
      slots_after_enddef storage pre name f hf hmode hdef post hclose hfin
    exact ⟨g, hg, hd, hslot, hnew, hzero⟩

/-- Witness of claim C7: the file of the section 8 scenario, stamped three times. -/
theorem pio_update_time_slots_witness :
    find_session (run (PioSubsystem.boot []) (scenario_calls.take 4)) "out.dat" =
      some { scenario_session with state := .Registered } ∧
    (perform (run (PioSubsystem.boot []) (scenario_calls.take 4))
      ( Call.eam_pio_enddef "out.dat")).1 = .ok ∧
    Call.eam_pio_closefile "out.dat" ∉ scenario_data_phase ∧
    Call.eam_pio_finalize ∉ scenario_data_phase ∧
    times_passed "out.dat" scenario_data_phase = [0, 300, 600] ∧
    ∃ g, find_session (run (PioSubsystem.boot [])
        (scenario_calls.take 4 ++ Call.eam_pio_enddef "out.dat" :: scenario_data_phase))
        "out.dat" = some g ∧
      g.state = .Defined ∧
      g.time_slot = (times_passed "out.dat" scenario_data_phase).length ∧
      (∀ i, i < (times_passed "out.dat" scenario_data_phase).length →
        assoc_lookup (i + 1) g.time_stamps = (times_passed "out.dat" scenario_data_phase)[i]?) ∧
      assoc_lookup 0 g.time_stamps = none :=
  ⟨by decide, by decide, by decide, by decide, by decide,
    (pio_update_time_slots [] (scenario_calls.take 4) scenario_data_phase "out.dat"
      { scenario_session with state := .Registered } (by decide) rfl (by decide) (by decide)
      (by decide)).2⟩


theorem to_string_data (n : Int) :
    (to_string n).data = (if n < 0 then ['-'] else []) ++ digits_msf n.natAbs := by
  unfold to_string
  by_cases hn : n < 0
  · simp [hn, toDigits_eq_digits_msf]
  · simp [hn, toDigits_eq_digits_msf]

theorem digits_msf_injective {a b : Nat} (h : digits_msf a = digits_msf b) : a = b := by
  rw [← decimal_value_digits_msf a, ← decimal_value_digits_msf b, h]

theorem to_string_injective {a b : Int} (h : to_string a = to_string b) : a = b := by
  have hd := congrArg String.data h
  rw [to_string_data, to_string_data] at hd
  by_cases ha : a < 0 <;> by_cases hb : b < 0
  · simp only [ha, hb, if_true, List.singleton_append, List.cons.injEq, true_and] at hd
    have := digits_msf_injective hd
    omega
  · simp only [ha, hb, if_true, if_false, List.singleton_append, List.nil_append] at hd
    have hmem : '-' ∈ digits_msf b.natAbs := by rw [← hd]; simp
    have := digits_msf_isDigit _ _ hmem
    exact absurd this (by decide)
  · simp only [ha, hb, if_true, if_false, List.singleton_append, List.nil_append] at hd
    have hmem : '-' ∈ digits_msf a.natAbs := by rw [hd]; simp
    have := digits_msf_isDigit _ _ hmem
    exact absurd this (by decide)
  · simp only [ha, hb, if_false, List.nil_append] at hd
    have := digits_msf_injective hd
    omega

theorem dim_name_data (e : Int) :
    ("dim" ++ to_string e).data = 'd' :: 'i' :: 'm' :: (to_string e).data := by
  simp [String.data_append]

theorem dim_name_ne (e : Int) (s : String) (hs : s.data.head? ≠ some 'd') :
    "dim" ++ to_string e ≠ s := by
  intro h
  apply hs
  rw [← h, dim_name_data]
  rfl

theorem dim_name_cancel {a b : Int} (h : "dim" ++ to_string a = "dim" ++ to_string b) :
    a = b := by
  have hd := congrArg String.data h
  rw [dim_name_data, dim_name_data] at hd
  simp only [List.cons.injEq, true_and] at hd
  exact to_string_injective (String.ext hd)

/-- Claim C12: `get_nc_tag_name` is injective on its supported inputs: if
`get_nc_tag_name t1 e1` and `get_nc_tag_name t2 e2` both succeed and return the same
string, then `t1 = t2`, and when that tag is CMP also `e1 = e2` (so no component name
"dim<extent>" coincides with the name of another tag); the returned name is never empty. -/
theorem get_nc_tag_name_injective (t1 t2 : FieldTag) (e1 e2 : Int) (name : String)
    (h1 : get_nc_tag_name t1 e1 = .ok name) (h2 : get_nc_tag_name t2 e2 = .ok name) :
    t1 = t2 ∧ (t1 = .CMP → e1 = e2) ∧ name ≠ "" := by
  cases t1 <;> cases t2 <;> simp [get_nc_tag_name, EKAT_ERROR_MSG] at h1 h2
  all_goals subst h1
  all_goals first
    | exact absurd h2 (by decide)
    | exact absurd h2 (dim_name_ne _ _ (by decide))
    | exact absurd h2.symm (dim_name_ne _ _ (by decide))
    | exact ⟨rfl, fun h => (by cases h), by decide⟩
    | exact ⟨rfl, fun _ => (dim_name_cancel h2).symm, dim_name_ne _ _ (by decide)⟩

/-- Witness of claim C12: the component name of extent 12. -/
theorem get_nc_tag_name_injective_witness :
    get_nc_tag_name .CMP 12 = .ok "dim12" ∧
    (FieldTag.CMP = FieldTag.CMP ∧ (FieldTag.CMP = .CMP → (12 : Int) = 12) ∧ "dim12" ≠ "") :=
  ⟨rfl, get_nc_tag_name_injective .CMP .CMP 12 12 "dim12" rfl rfl⟩

end scorpio

namespace shoc
namespace unit_test

/-! ### The input checks of the SHOC energy fixer test -/

theorem forM_ok {α : Type} (l : List α) (f : α → Except String Unit)
    (h : ∀ x ∈ l, f x = .ok ()) : l.forM f = .ok () := by
  induction l with
  | nil => rfl
  | cons a as ih =>
    have hrest := ih (fun x hx => h x (List.mem_cons_of_mem a hx))
    simp only [List.forM, h a (List.mem_cons_self a as), hrest, bind, Except.bind]

theorem offset_lt {shcol rows s n : Nat} (hs : s < shcol) (hn : n < rows) :
    n + s * rows < shcol * rows := by
  have h1 : (s + 1) * rows ≤ shcol * rows := Nat.mul_le_mul_right rows hs
  have h2 : (s + 1) * rows = s * rows + rows := by ring
  omega

theorem check_zt_level_ok (SDS : SHOCEnergytotData) (s n : Nat) (z : Real)
    (hn : (n : Int) < nlev) (hz : SDS.zt_grid[n + s * SDS.nlev]? = some z) (h0 : 0 ≤ z) :
    check_zt_level SDS s n = .ok () := by
  have hg : ¬ ((n : Int) > nlev - 1) := by omega
  simp [check_zt_level, read, hz, REQUIRE, h0, hg, bind, Except.bind, pure, Except.pure]

theorem check_zi_level_ok (SDS : SHOCEnergytotData) (s n : Nat) (z : Real)
    (hn : (n : Int) < nlevi) (hz : SDS.zi_grid[n + s * SDS.nlevi]? = some z) (h0 : 0 ≤ z) :
    check_zi_level SDS s n = .ok () := by
  have hg : ¬ ((n : Int) > nlevi - 1) := by omega
  simp [check_zi_level, read, hz, REQUIRE, h0, hg, bind, Except.bind, pure, Except.pure]

theorem input_checks_ignore_order (SDS : SHOCEnergytotData)
    (hlev : (SDS.nlev : Int) ≤ nlev) (hlevi : (SDS.nlevi : Int) ≤ nlevi)
    (hzt : ∀ i, i < SDS.shcol * SDS.nlev → ∃ z, SDS.zt_grid[i]? = some z ∧ 0 ≤ z)
    (hzi : ∀ i, i < SDS.shcol * SDS.nlevi → ∃ z, SDS.zi_grid[i]? = some z ∧ 0 ≤ z) :
    input_checks SDS = .ok () := by
  unfold input_checks
  apply forM_ok
  intro s hs
  have hs2 : s < SDS.shcol := List.mem_range.mp hs
  have h1 : (List.range SDS.nlev).forM (fun n => check_zt_level SDS s n) = .ok () := by
    apply forM_ok
    intro n hn
    have hn2 : n < SDS.nlev := List.mem_range.mp hn
    obtain ⟨z, hz, h0⟩ := hzt _ (offset_lt hs2 hn2)
    exact check_zt_level_ok SDS s n z (by omega) hz h0
  have h2 : (List.range SDS.nlevi).forM (fun n => check_zi_level SDS s n) = .ok () := by
    apply forM_ok
    intro n hn
    have hn2 : n < SDS.nlevi := List.mem_range.mp hn
    obtain ⟨z, hz, h0⟩ := hzi _ (offset_lt hs2 hn2)
    exact check_zi_level_ok SDS s n z (by omega) hz h0
  simp only [h1, h2, bind, Except.bind]

/-- Claim C11, evaluated on the code: the input checks of the test pass on a grid whose
heights grow with the level index in both columns, which the check worded by the claim
(height at index n+1 strictly below the height at index n) rejects; on the grid of the
test itself both pass.  The guards `n > nlev-1` and `n > nlevi-1` are false at every level
the loops visit, so the comparison of neighbouring heights is never made. -/
theorem input_checks_accept_rising_grid :
    input_checks rising_grid = .ok () ∧
    heights_strictly_decreasing rising_grid = false ∧
    input_checks falling_grid = .ok () ∧
    heights_strictly_decreasing falling_grid = true ∧
    (∀ n : Nat, n < rising_grid.nlev → ¬ ((n : Int) > nlev - 1)) ∧
    (∀ n : Nat, n < rising_grid.nlevi → ¬ ((n : Int) > nlevi - 1)) := by
  refine ⟨by rfl, by decide, by rfl, by decide, ?_, ?_⟩
  · intro n hn
    have : n < 5 := hn
    simp only [nlev]
    omega
  · intro n hn
    have : n < 6 := hn
    simp only [nlevi, nlev]
    omega

end unit_test
end shoc

end scream
